import Mathlib

/-!
Verification of the bitcore Script subsystem (src/lib/script.js) against its
natural-language specification.

The embedding works over byte lists (`List Nat`, each entry < 256 where it
matters) and chunk records mirroring the untyped JS chunk objects
`{buf, len, opcodenum}`.  Code that lives in this repository but outside the
provided sources (BufferReader/BufferWriter primitives, the opcode registry,
`PublicKey.isValid`, `$.checkState`) is modelled from the spec where needed;
each such definition carries a doc comment saying so.

Recursive functions that a JS engine runs by unbounded iteration are embedded
with an explicit fuel argument (always instantiated with a provably
sufficient amount), so every definition is executable by kernel reduction.
-/

/-- A parsed script chunk, mirroring the JS record `{buf, len, opcodenum}`.
`buf = none` encodes an absent `buf` field (a bare opcode chunk);
`len = none` encodes an absent `len` field. -/
structure Chunk where
  opcodenum : Nat
  buf : Option (List Nat) := none
  len : Option Nat := none
deriving Repr, DecidableEq

namespace Opcode

/-- Opcode numeric constants used by script.js (values from the spec §3/§4.5). -/
def OP_0 : Nat := 0
def OP_PUSHDATA1 : Nat := 76
def OP_PUSHDATA2 : Nat := 77
def OP_PUSHDATA4 : Nat := 78
def OP_1 : Nat := 81
def OP_16 : Nat := 96
def OP_RETURN : Nat := 106
def OP_DUP : Nat := 118
def OP_EQUAL : Nat := 135
def OP_EQUALVERIFY : Nat := 136
def OP_HASH160 : Nat := 169
def OP_CODESEPARATOR : Nat := 171
def OP_CHECKSIG : Nat := 172
def OP_CHECKMULTISIG : Nat := 174

/-- Modelled from the spec (§3): `Opcode.isSmallIntOp` — opcode.js is not
under src/.  True for `OP_0` (0) and `OP_1 .. OP_16` (0x51..0x60). -/
def isSmallIntOp (n : Nat) : Bool :=
  n == OP_0 || (decide (OP_1 ≤ n) && decide (n ≤ OP_16))

/-- Modelled from the spec (§3): `Opcode.smallInt n` for `n ∈ [0,16]` yields
the corresponding opcode; out of range is an argument-check failure
(opcode.js is not under src/). -/
def smallInt (n : Nat) : Option Nat :=
  if n = 0 then some OP_0
  else if n ≤ 16 then some (OP_1 + n - 1)
  else none

end Opcode

/-- Serializer primitive: `BufferWriter.writeUInt8`.  The JS writer asserts
the value fits a byte; the chunk invariants guarantee that at every call
site, so the pure model masks to a byte. -/
def writeUInt8 (n : Nat) : List Nat := [n % 256]

/-- Serializer primitive: `BufferWriter.writeUInt16LE` (little endian). -/
def writeUInt16LE (n : Nat) : List Nat := [n % 256, n / 256 % 256]

/-- Serializer primitive: `BufferWriter.writeUInt32LE` (little endian). -/
def writeUInt32LE (n : Nat) : List Nat :=
  [n % 256, n / 256 % 256, n / 65536 % 256, n / 16777216 % 256]

/-- `Script.fromBuffer` (script.js lines 53-101), with explicit fuel.  The
reader primitives are modelled from the spec (§4.1, BufferReader is not under
src/): reading `len` bytes, a `UInt8`, a `UInt16LE` or a `UInt32LE` past the
end of the stream fails (`Truncated`), encoded as `none`.  Each loop
iteration consumes at least one byte, so fuel `bytes.length + 1` suffices. -/
def fromBufferFuel : Nat → List Nat → Option (List Chunk)
  | 0, _ => none
  | _ + 1, [] => some []
  | fuel + 1, op :: rest =>
    if 0 < op ∧ op < Opcode.OP_PUSHDATA1 then
      -- direct push: len = opcodenum
      if op ≤ rest.length then
        match fromBufferFuel fuel (rest.drop op) with
        | none => none
        | some cs => some (⟨op, some (rest.take op), some op⟩ :: cs)
      else none
    else if op = Opcode.OP_PUSHDATA1 then
      match rest with
      | [] => none
      | l0 :: r1 =>
        if l0 ≤ r1.length then
          match fromBufferFuel fuel (r1.drop l0) with
          | none => none
          | some cs => some (⟨op, some (r1.take l0), some l0⟩ :: cs)
        else none
    else if op = Opcode.OP_PUSHDATA2 then
      match rest with
      | l0 :: l1 :: r2 =>
        let len := l0 + 256 * l1
        if len ≤ r2.length then
          match fromBufferFuel fuel (r2.drop len) with
          | none => none
          | some cs => some (⟨op, some (r2.take len), some len⟩ :: cs)
        else none
      | _ => none
    else if op = Opcode.OP_PUSHDATA4 then
      match rest with
      | l0 :: l1 :: l2 :: l3 :: r4 =>
        let len := l0 + 256 * l1 + 65536 * l2 + 16777216 * l3
        if len ≤ r4.length then
          match fromBufferFuel fuel (r4.drop len) with
          | none => none
          | some cs => some (⟨op, some (r4.take len), some len⟩ :: cs)
        else none
      | _ => none
    else
      match fromBufferFuel fuel rest with
      | none => none
      | some cs => some (⟨op, none, none⟩ :: cs)

/-- `Script.fromBuffer`: parse a byte sequence into chunks, `none` on a
truncated stream. -/
def Script.fromBuffer (bytes : List Nat) : Option (List Chunk) :=
  fromBufferFuel (bytes.length + 1) bytes

/-- `Script.prototype.toBuffer` (script.js lines 103-127): write each chunk's
opcode byte; when a `buf` field is present, write the length prefix dictated
by the opcode and then the payload. -/
def Script.toBuffer : List Chunk → List Nat
  | [] => []
  | c :: cs =>
    (writeUInt8 c.opcodenum ++
      (match c.buf with
       | none => []
       | some buf =>
         if c.opcodenum < Opcode.OP_PUSHDATA1 then buf
         else if c.opcodenum = Opcode.OP_PUSHDATA1 then
           writeUInt8 (c.len.getD 0) ++ buf
         else if c.opcodenum = Opcode.OP_PUSHDATA2 then
           writeUInt16LE (c.len.getD 0) ++ buf
         else if c.opcodenum = Opcode.OP_PUSHDATA4 then
           writeUInt32LE (c.len.getD 0) ++ buf
         else [])) ++ Script.toBuffer cs

theorem fromBufferFuel_roundtrip :
    ∀ fuel (b : List Nat) (s : List Chunk), b.length < fuel →
      (∀ x ∈ b, x < 256) → fromBufferFuel fuel b = some s →
      Script.toBuffer s = b := by
  intro fuel
  induction fuel with
  | zero => intro b s h; omega
  | succ fuel ih =>
    intro b s hlen hbytes hparse
    match b with
    | [] =>
      simp only [fromBufferFuel, Option.some.injEq] at hparse
      subst hparse; rfl
    | op :: rest =>
      have hop : op < 256 := hbytes op (by simp)
      have hrest : ∀ x ∈ rest, x < 256 := fun x hx => hbytes x (by simp [hx])
      simp only [fromBufferFuel] at hparse
      by_cases h1 : 0 < op ∧ op < Opcode.OP_PUSHDATA1
      · simp only [if_pos h1] at hparse
        by_cases h2 : op ≤ rest.length
        · simp only [if_pos h2] at hparse
          cases hrec : fromBufferFuel fuel (rest.drop op) with
          | none => simp [hrec] at hparse
          | some cs =>
            simp only [hrec, Option.some.injEq] at hparse
            subst hparse
            have := ih (rest.drop op) cs
              (by simp at hlen ⊢; omega)
              (fun x hx => hrest x (List.mem_of_mem_drop hx)) hrec
            simp only [Script.toBuffer, this, writeUInt8]
            have hlt : op < Opcode.OP_PUSHDATA1 := h1.2
            simp only [if_pos hlt]
            rw [Nat.mod_eq_of_lt hop]
            simp [List.take_append_drop]
        · simp [if_neg h2] at hparse
      · simp only [if_neg h1] at hparse
        by_cases h2 : op = Opcode.OP_PUSHDATA1
        · simp only [if_pos h2] at hparse
          match rest with
          | [] => simp at hparse
          | l0 :: r1 =>
            have hl0 : l0 < 256 := hrest l0 (by simp)
            have hr1 : ∀ x ∈ r1, x < 256 := fun x hx => hrest x (by simp [hx])
            by_cases h3 : l0 ≤ r1.length
            · simp only [if_pos h3] at hparse
              cases hrec : fromBufferFuel fuel (r1.drop l0) with
              | none => simp [hrec] at hparse
              | some cs =>
                simp only [hrec, Option.some.injEq] at hparse
                subst hparse
                have := ih (r1.drop l0) cs
                  (by simp at hlen ⊢; omega)
                  (fun x hx => hr1 x (List.mem_of_mem_drop hx)) hrec
                simp only [Script.toBuffer, this, writeUInt8]
                subst h2
                have e0 : l0 % 256 = l0 := Nat.mod_eq_of_lt hl0
                simp [Opcode.OP_PUSHDATA1, e0, List.take_append_drop]
            · simp [if_neg h3] at hparse
        · simp only [if_neg h2] at hparse
          by_cases h4 : op = Opcode.OP_PUSHDATA2
          · simp only [if_pos h4] at hparse
            match rest with
            | [] => simp at hparse
            | [l0] => simp at hparse
            | l0 :: l1 :: r2 =>
              have hl0 : l0 < 256 := hrest l0 (by simp)
              have hl1 : l1 < 256 := hrest l1 (by simp)
              have hr2 : ∀ x ∈ r2, x < 256 := fun x hx => hrest x (by simp [hx])
              simp only at hparse
              by_cases h3 : l0 + 256 * l1 ≤ r2.length
              · simp only [if_pos h3] at hparse
                cases hrec : fromBufferFuel fuel (r2.drop (l0 + 256 * l1)) with
                | none => simp [hrec] at hparse
                | some cs =>
                  simp only [hrec, Option.some.injEq] at hparse
                  subst hparse
                  have := ih (r2.drop (l0 + 256 * l1)) cs
                    (by simp at hlen ⊢; omega)
                    (fun x hx => hr2 x (List.mem_of_mem_drop hx)) hrec
                  simp only [Script.toBuffer, this, writeUInt8, writeUInt16LE]
                  subst h4
                  have e0 : (l0 + 256 * l1) % 256 = l0 := by omega
                  have e1 : (l0 + 256 * l1) / 256 % 256 = l1 := by omega
                  simp [Opcode.OP_PUSHDATA2, Opcode.OP_PUSHDATA1, e0, e1,
                    List.take_append_drop]
              · simp [if_neg h3] at hparse
          · simp only [if_neg h4] at hparse
            by_cases h5 : op = Opcode.OP_PUSHDATA4
            · simp only [if_pos h5] at hparse
              match rest with
              | [] => simp at hparse
              | [l0] => simp at hparse
              | [l0, l1] => simp at hparse
              | [l0, l1, l2] => simp at hparse
              | l0 :: l1 :: l2 :: l3 :: r4 =>
                have hl0 : l0 < 256 := hrest l0 (by simp)
                have hl1 : l1 < 256 := hrest l1 (by simp)
                have hl2 : l2 < 256 := hrest l2 (by simp)
                have hl3 : l3 < 256 := hrest l3 (by simp)
                have hr4 : ∀ x ∈ r4, x < 256 := fun x hx => hrest x (by simp [hx])
                simp only at hparse
                by_cases h3 : l0 + 256 * l1 + 65536 * l2 + 16777216 * l3 ≤ r4.length
                · simp only [if_pos h3] at hparse
                  cases hrec : fromBufferFuel fuel
                      (r4.drop (l0 + 256 * l1 + 65536 * l2 + 16777216 * l3)) with
                  | none => simp [hrec] at hparse
                  | some cs =>
                    simp only [hrec, Option.some.injEq] at hparse
                    subst hparse
                    have := ih (r4.drop (l0 + 256 * l1 + 65536 * l2 + 16777216 * l3)) cs
                      (by simp at hlen ⊢; omega)
                      (fun x hx => hr4 x (List.mem_of_mem_drop hx)) hrec
                    simp only [Script.toBuffer, this, writeUInt8, writeUInt32LE]
                    subst h5
                    have e0 : (l0 + 256 * l1 + 65536 * l2 + 16777216 * l3) % 256 = l0 := by
                      omega
                    have e1 : (l0 + 256 * l1 + 65536 * l2 + 16777216 * l3) / 256 % 256 = l1 := by
                      omega
                    have e2 :
                        (l0 + 256 * l1 + 65536 * l2 + 16777216 * l3) / 65536 % 256 = l2 := by
                      omega
                    have e3 :
                        (l0 + 256 * l1 + 65536 * l2 + 16777216 * l3) / 16777216 % 256 = l3 := by
                      omega
                    simp [Opcode.OP_PUSHDATA4, Opcode.OP_PUSHDATA2, Opcode.OP_PUSHDATA1,
                      e0, e1, e2, e3, List.take_append_drop]
                · simp [if_neg h3] at hparse
            · simp only [if_neg h5] at hparse
              cases hrec : fromBufferFuel fuel rest with
              | none => simp [hrec] at hparse
              | some cs =>
                simp only [hrec, Option.some.injEq] at hparse
                subst hparse
                have := ih rest cs (by simp at hlen ⊢; omega) hrest hrec
                simp only [Script.toBuffer, this, writeUInt8]
                rw [Nat.mod_eq_of_lt hop]
                simp

/-- C1: for every byte sequence `b` that `Script.fromBuffer` parses without
error, `Script.prototype.toBuffer` on the resulting chunk sequence yields
exactly `b`, byte-exact — including non-minimally encoded pushes, whose
declared length field is written back unchanged. -/
theorem script_fromBuffer_toBuffer_roundtrip (b : List Nat) (s : List Chunk)
    (hb : ∀ x ∈ b, x < 256) (hp : Script.fromBuffer b = some s) :
    Script.toBuffer s = b :=
  fromBufferFuel_roundtrip (b.length + 1) b s (Nat.lt_succ_self _) hb hp

/-- Witness for C1 at a concrete non-minimally encoded input:
`4c 02 aa bb` is `OP_PUSHDATA1, len 2, payload aa bb` (a push that could have
been encoded directly), and it round-trips byte-exactly. -/
theorem script_fromBuffer_toBuffer_roundtrip_witness :
    Script.fromBuffer [76, 2, 170, 187] =
      some [⟨76, some [170, 187], some 2⟩] ∧
    Script.toBuffer [⟨76, some [170, 187], some 2⟩] = [76, 2, 170, 187] :=
  ⟨by decide, script_fromBuffer_toBuffer_roundtrip [76, 2, 170, 187]
    [⟨76, some [170, 187], some 2⟩] (by decide) (by decide)⟩

/-!
## `Script.prototype.equals` (script.js lines 401-420)

The loop body tests `BufferUtil.isBuffer(this.chunks[i])` and
`this.chunks[i] instanceof Opcode`, and finally compares
`this.chunks[i].num !== script.chunks[i].num`.  Every element of `chunks` is
a plain record `{buf, len, opcodenum}` (that is what the parser, the
builders and the mutators produce), so in JS these evaluate to flat facts:
a chunk record is not a Buffer instance, is not an Opcode instance, and has
no `num` property (reading it yields `undefined`).  The three helpers below
state those facts once, so the loop body can be transliterated directly.
-/

/-- `BufferUtil.isBuffer` applied to a chunk record: always `false` (a plain
object is not a Buffer instance). -/
def chunkIsBufferInstance (_ : Chunk) : Bool := false

/-- `chunk instanceof Opcode` for a chunk record: always `false`. -/
def chunkIsOpcodeInstance (_ : Chunk) : Bool := false

/-- Reading the nonexistent `num` property of a chunk record: `undefined`,
modelled as `none`. -/
def chunkNumField (_ : Chunk) : Option Nat := none

/-- `BufferUtil.equals(chunkA, chunkB)`: dead code in `equals` (guarded by
`chunkIsBufferInstance`, which is constantly false), so its value is never
observed; modelled as a constant. -/
def bufferUtilEqualsChunks (_ _ : Chunk) : Bool := true

/-- The `for` loop of `Script.prototype.equals`, one iteration per index. -/
def equalsLoop : List (Chunk × Chunk) → Bool
  | [] => true
  | (c1, c2) :: rest =>
    if chunkIsBufferInstance c1 && !chunkIsBufferInstance c2 then false
    else if chunkIsOpcodeInstance c1 && !chunkIsOpcodeInstance c2 then false
    else if chunkIsBufferInstance c1 && !bufferUtilEqualsChunks c1 c2 then false
    else if chunkNumField c1 ≠ chunkNumField c2 then false
    else equalsLoop rest

/-- `Script.prototype.equals`: length check, then the pairwise loop. -/
def Script.equals (a b : List Chunk) : Bool :=
  if a.length ≠ b.length then false
  else equalsLoop (a.zip b)

/-- C2 (code bug): the claim says `equals` is true iff the two scripts have
chunk-wise equal chunks (equivalently equal serializations).  On the code,
every comparison in the loop body is vacuous, so `equals` degenerates to a
chunk-count check: the scripts `OP_1` and `OP_2` (bytes `51` and `52`) have
different opcodes and different serializations, yet `equals` returns
`true`. -/
theorem script_equals_is_only_length_check :
    Script.fromBuffer [81] = some [⟨81, none, none⟩] ∧
    Script.fromBuffer [82] = some [⟨82, none, none⟩] ∧
    Script.equals [⟨81, none, none⟩] [⟨82, none, none⟩] = true ∧
    [⟨81, none, none⟩] ≠ ([⟨82, none, none⟩] : List Chunk) ∧
    Script.toBuffer [⟨81, none, none⟩] ≠ Script.toBuffer [⟨82, none, none⟩] := by
  refine ⟨by decide, by decide, by decide, by decide, by decide⟩

/-!
## Classifier (script.js lines 207-374)

`Script.identifiers` is a JS object whose string keys iterate in insertion
order, so `classify` tries the predicates in the order they are assigned at
lines 353-361: PUBKEY_OUT, PUBKEY_IN, PUBKEYHASH_OUT, PUBKEYHASH_IN,
MULTISIG_OUT, MULTISIG_IN, SCRIPTHASH_OUT, SCRIPTHASH_IN, DATA_OUT.

`isScriptHashIn` re-parses the last chunk's payload and classifies it, so
`classify` is recursive; the embedding uses fuel.  One level of nesting
strictly decreases `scriptSize`, so `scriptSize s + 1` fuel suffices
(`classifyFuel_congr` below proves fuel-irrelevance above that bound).
-/

inductive ScriptType where
  | UNKNOWN
  | PUBKEY_OUT
  | PUBKEY_IN
  | PUBKEYHASH_OUT
  | PUBKEYHASH_IN
  | SCRIPTHASH_OUT
  | SCRIPTHASH_IN
  | MULTISIG_OUT
  | MULTISIG_IN
  | DATA_OUT
deriving Repr, DecidableEq

/-- `Script.prototype.isPublicKeyHashOut` (lines 212-219).  Note: the code
checks only that `chunks[2].buf` is present — the payload length is NOT
compared to 20. -/
def Script.isPublicKeyHashOut (s : List Chunk) : Bool :=
  match s with
  | [c0, c1, c2, c3, c4] =>
    c0.opcodenum == Opcode.OP_DUP && c1.opcodenum == Opcode.OP_HASH160 &&
    c2.buf.isSome && c3.opcodenum == Opcode.OP_EQUALVERIFY &&
    c4.opcodenum == Opcode.OP_CHECKSIG
  | _ => false

/-- `Script.prototype.isPublicKeyHashIn` (lines 224-230).  `isValid` is the
external `PublicKey.isValid` collaborator (§6.5); applied to an absent `buf`
(JS `undefined`) it returns false. -/
def Script.isPublicKeyHashIn (isValid : List Nat → Bool) (s : List Chunk) : Bool :=
  match s with
  | [c0, c1] =>
    (match c0.buf with
     | some b0 => decide (71 ≤ b0.length) && decide (b0.length ≤ 73)
     | none => false) &&
    (match c1.buf with
     | some b1 => isValid b1
     | none => false)
  | _ => false

/-- `Script.prototype.isPublicKeyOut` (lines 240-245). -/
def Script.isPublicKeyOut (isValid : List Nat → Bool) (s : List Chunk) : Bool :=
  match s with
  | [c0, c1] =>
    (match c0.buf with
     | some b0 => isValid b0
     | none => false) &&
    c1.opcodenum == Opcode.OP_CHECKSIG
  | _ => false

/-- `Script.prototype.isPublicKeyIn` (lines 250-254). -/
def Script.isPublicKeyIn (s : List Chunk) : Bool :=
  match s with
  | [c0] =>
    match c0.buf with
    | some b => b.length == 71
    | none => false
  | _ => false

/-- `Script.prototype.isScriptHashOut` (lines 260-266). -/
def Script.isScriptHashOut (s : List Chunk) : Bool :=
  match s with
  | [c0, c1, c2] =>
    c0.opcodenum == Opcode.OP_HASH160 &&
    (match c1.buf with
     | some b => b.length == 20
     | none => false) &&
    c2.opcodenum == Opcode.OP_EQUAL
  | _ => false

/-- `Script.prototype.isMultisigOut` (lines 292-300): more than 3 chunks, a
small-int first chunk, buffers in every middle chunk
(`chunks.slice(1, length - 2)`), a small-int at index `length - 2` and
OP_CHECKMULTISIG last. -/
def Script.isMultisigOut (s : List Chunk) : Bool :=
  decide (3 < s.length) &&
  (match s.head? with
   | some c0 => Opcode.isSmallIntOp c0.opcodenum
   | none => false) &&
  ((s.drop 1).dropLast.dropLast.all fun c => c.buf.isSome) &&
  (match s.dropLast.getLast? with
   | some c => Opcode.isSmallIntOp c.opcodenum
   | none => false) &&
  (match s.getLast? with
   | some c => c.opcodenum == Opcode.OP_CHECKMULTISIG
   | none => false)

/-- `Script.prototype.isMultisigIn` (lines 306-314). -/
def Script.isMultisigIn (s : List Chunk) : Bool :=
  decide (2 ≤ s.length) &&
  (match s.head? with
   | some c0 => c0.opcodenum == 0
   | none => false) &&
  ((s.drop 1).all fun c =>
    match c.buf with
    | some b => b.length == 71
    | none => false)

/-- Reading the nonexistent `length` property of a chunk record (`undefined`,
modelled as `none`): `isDataOut` line 326 reads `this.chunks[1].length`. -/
def jsChunkLengthField (_ : Chunk) : Option Nat := none

/-- Reading the nonexistent `len` property of the chunks array (`undefined`):
`isDataOut` line 326 reads `this.chunks.len`. -/
def jsChunksLenField (_ : List Chunk) : Option Nat := none

/-- `Script.prototype.isDataOut` (lines 319-327).  The final conjunct of the
source compares two undefined fields (`chunks[1].length === chunks.len`),
which is always true; it is kept verbatim via the two helpers above. -/
def Script.isDataOut (s : List Chunk) : Bool :=
  decide (1 ≤ s.length) &&
  (match s.head? with
   | some c0 => c0.opcodenum == Opcode.OP_RETURN
   | none => false) &&
  (s.length == 1 ||
    (s.length == 2 &&
      (match s.get? 1 with
       | some c1 =>
         c1.buf.isSome && decide ((c1.buf.getD []).length ≤ 40) &&
         (jsChunkLengthField c1 == jsChunksLenField s)
       | none => false)))

/-- The byte weight of a chunk: one opcode byte plus its payload. -/
def chunkSize (c : Chunk) : Nat := 1 + (c.buf.getD []).length

/-- Total byte weight of a chunk sequence; the termination measure for
`classify`. -/
def scriptSize (s : List Chunk) : Nat := (s.map chunkSize).sum

/-- `Script.prototype.classify` (lines 367-374) with explicit fuel: try the
identifiers in their insertion order (lines 352-361) and return the first
match.  The eighth condition is the body of `isScriptHashIn`
(lines 272-287): parse the last chunk's payload (`new Script(scriptBuf)`) and
test whether its classification is not UNKNOWN. -/
def classifyFuel (isValid : List Nat → Bool) : Nat → List Chunk → ScriptType
  | 0, _ => ScriptType.UNKNOWN
  | fuel + 1, s =>
    if Script.isPublicKeyOut isValid s then ScriptType.PUBKEY_OUT
    else if Script.isPublicKeyIn s then ScriptType.PUBKEY_IN
    else if Script.isPublicKeyHashOut s then ScriptType.PUBKEYHASH_OUT
    else if Script.isPublicKeyHashIn isValid s then ScriptType.PUBKEYHASH_IN
    else if Script.isMultisigOut s then ScriptType.MULTISIG_OUT
    else if Script.isMultisigIn s then ScriptType.MULTISIG_IN
    else if Script.isScriptHashOut s then ScriptType.SCRIPTHASH_OUT
    else if (match s.getLast? with
             | none => false
             | some c =>
               match c.buf with
               | none => false
               | some b =>
                 match Script.fromBuffer b with
                 | none => false
                 | some s2 => !(classifyFuel isValid fuel s2 == ScriptType.UNKNOWN))
      then ScriptType.SCRIPTHASH_IN
    else if Script.isDataOut s then ScriptType.DATA_OUT
    else ScriptType.UNKNOWN

/-- `Script.prototype.isScriptHashIn` at a given fuel (the body of the eighth
condition of `classifyFuel`).  A payload that does not parse cannot make the
inner classification non-UNKNOWN, modelled as `false` (spec §4.5: "the last
chunk's payload parses as a script whose classification is not UNKNOWN"). -/
def isScriptHashInFuel (isValid : List Nat → Bool) (fuel : Nat) (s : List Chunk) : Bool :=
  match s.getLast? with
  | none => false
  | some c =>
    match c.buf with
    | none => false
    | some b =>
      match Script.fromBuffer b with
      | none => false
      | some s2 => !(classifyFuel isValid fuel s2 == ScriptType.UNKNOWN)

/-- `Script.prototype.classify`. -/
def Script.classify (isValid : List Nat → Bool) (s : List Chunk) : ScriptType :=
  classifyFuel isValid (scriptSize s + 1) s

/-- `Script.prototype.isScriptHashIn`. -/
def Script.isScriptHashIn (isValid : List Nat → Bool) (s : List Chunk) : Bool :=
  isScriptHashInFuel isValid (scriptSize s) s

theorem classifyFuel_succ (isValid : List Nat → Bool) (fuel : Nat) (s : List Chunk) :
    classifyFuel isValid (fuel + 1) s =
      (if Script.isPublicKeyOut isValid s then ScriptType.PUBKEY_OUT
       else if Script.isPublicKeyIn s then ScriptType.PUBKEY_IN
       else if Script.isPublicKeyHashOut s then ScriptType.PUBKEYHASH_OUT
       else if Script.isPublicKeyHashIn isValid s then ScriptType.PUBKEYHASH_IN
       else if Script.isMultisigOut s then ScriptType.MULTISIG_OUT
       else if Script.isMultisigIn s then ScriptType.MULTISIG_IN
       else if Script.isScriptHashOut s then ScriptType.SCRIPTHASH_OUT
       else if isScriptHashInFuel isValid fuel s then ScriptType.SCRIPTHASH_IN
       else if Script.isDataOut s then ScriptType.DATA_OUT
       else ScriptType.UNKNOWN) := rfl

/-- Unfolding `classify` one step: the code's identifier order, with the
standalone `isScriptHashIn` in eighth position. -/
theorem classify_unfold (isValid : List Nat → Bool) (s : List Chunk) :
    Script.classify isValid s =
      (if Script.isPublicKeyOut isValid s then ScriptType.PUBKEY_OUT
       else if Script.isPublicKeyIn s then ScriptType.PUBKEY_IN
       else if Script.isPublicKeyHashOut s then ScriptType.PUBKEYHASH_OUT
       else if Script.isPublicKeyHashIn isValid s then ScriptType.PUBKEYHASH_IN
       else if Script.isMultisigOut s then ScriptType.MULTISIG_OUT
       else if Script.isMultisigIn s then ScriptType.MULTISIG_IN
       else if Script.isScriptHashOut s then ScriptType.SCRIPTHASH_OUT
       else if Script.isScriptHashIn isValid s then ScriptType.SCRIPTHASH_IN
       else if Script.isDataOut s then ScriptType.DATA_OUT
       else ScriptType.UNKNOWN) := rfl

theorem fromBufferFuel_size :
    ∀ fuel (b : List Nat) (s : List Chunk), fromBufferFuel fuel b = some s →
      scriptSize s ≤ b.length := by
  intro fuel
  induction fuel with
  | zero => intro b s h; simp [fromBufferFuel] at h
  | succ fuel ih =>
    intro b s hparse
    match b with
    | [] =>
      simp only [fromBufferFuel, Option.some.injEq] at hparse
      subst hparse; simp [scriptSize]
    | op :: rest =>
      simp only [fromBufferFuel] at hparse
      by_cases h1 : 0 < op ∧ op < Opcode.OP_PUSHDATA1
      · simp only [if_pos h1] at hparse
        by_cases h2 : op ≤ rest.length
        · simp only [if_pos h2] at hparse
          cases hrec : fromBufferFuel fuel (rest.drop op) with
          | none => simp [hrec] at hparse
          | some cs =>
            simp only [hrec, Option.some.injEq] at hparse
            subst hparse
            have := ih (rest.drop op) cs hrec
            simp only [scriptSize, chunkSize, List.map_cons, List.sum_cons] at this ⊢
            simp only [Option.getD_some, List.length_take, List.length_drop] at this ⊢
            simp only [List.length_cons]
            omega
        · simp [if_neg h2] at hparse
      · simp only [if_neg h1] at hparse
        by_cases h2 : op = Opcode.OP_PUSHDATA1
        · simp only [if_pos h2] at hparse
          match rest with
          | [] => simp at hparse
          | l0 :: r1 =>
            by_cases h3 : l0 ≤ r1.length
            · simp only [if_pos h3] at hparse
              cases hrec : fromBufferFuel fuel (r1.drop l0) with
              | none => simp [hrec] at hparse
              | some cs =>
                simp only [hrec, Option.some.injEq] at hparse
                subst hparse
                have := ih (r1.drop l0) cs hrec
                simp only [scriptSize, chunkSize, List.map_cons, List.sum_cons] at this ⊢
                simp only [Option.getD_some, List.length_take, List.length_drop] at this ⊢
                simp only [List.length_cons]
                omega
            · simp [if_neg h3] at hparse
        · simp only [if_neg h2] at hparse
          by_cases h4 : op = Opcode.OP_PUSHDATA2
          · simp only [if_pos h4] at hparse
            match rest with
            | [] => simp at hparse
            | [l0] => simp at hparse
            | l0 :: l1 :: r2 =>
              simp only at hparse
              by_cases h3 : l0 + 256 * l1 ≤ r2.length
              · simp only [if_pos h3] at hparse
                cases hrec : fromBufferFuel fuel (r2.drop (l0 + 256 * l1)) with
                | none => simp [hrec] at hparse
                | some cs =>
                  simp only [hrec, Option.some.injEq] at hparse
                  subst hparse
                  have := ih (r2.drop (l0 + 256 * l1)) cs hrec
                  simp only [scriptSize, chunkSize, List.map_cons, List.sum_cons] at this ⊢
                  simp only [Option.getD_some, List.length_take, List.length_drop] at this ⊢
                  simp only [List.length_cons]
                  omega
              · simp [if_neg h3] at hparse
          · simp only [if_neg h4] at hparse
            by_cases h5 : op = Opcode.OP_PUSHDATA4
            · simp only [if_pos h5] at hparse
              match rest with
              | [] => simp at hparse
              | [l0] => simp at hparse
              | [l0, l1] => simp at hparse
              | [l0, l1, l2] => simp at hparse
              | l0 :: l1 :: l2 :: l3 :: r4 =>
                simp only at hparse
                by_cases h3 : l0 + 256 * l1 + 65536 * l2 + 16777216 * l3 ≤ r4.length
                · simp only [if_pos h3] at hparse
                  cases hrec : fromBufferFuel fuel
                      (r4.drop (l0 + 256 * l1 + 65536 * l2 + 16777216 * l3)) with
                  | none => simp [hrec] at hparse
                  | some cs =>
                    simp only [hrec, Option.some.injEq] at hparse
                    subst hparse
                    have := ih (r4.drop (l0 + 256 * l1 + 65536 * l2 + 16777216 * l3)) cs hrec
                    simp only [scriptSize, chunkSize, List.map_cons, List.sum_cons] at this ⊢
                    simp only [Option.getD_some, List.length_take, List.length_drop] at this ⊢
                    simp only [List.length_cons]
                    omega
                · simp [if_neg h3] at hparse
            · simp only [if_neg h5] at hparse
              cases hrec : fromBufferFuel fuel rest with
              | none => simp [hrec] at hparse
              | some cs =>
                simp only [hrec, Option.some.injEq] at hparse
                subst hparse
                have := ih rest cs hrec
                simp only [scriptSize, chunkSize, List.map_cons, List.sum_cons] at this ⊢
                simp only [Option.getD_none, List.length_nil, List.length_cons]
                omega

theorem fromBuffer_size (b : List Nat) (s : List Chunk)
    (h : Script.fromBuffer b = some s) : scriptSize s ≤ b.length :=
  fromBufferFuel_size (b.length + 1) b s h

theorem chunk_mem_size_le (c : Chunk) (s : List Chunk) (hc : c ∈ s) :
    chunkSize c ≤ scriptSize s :=
  List.single_le_sum (fun x _ => Nat.zero_le x) (chunkSize c)
    (List.mem_map_of_mem chunkSize hc)

theorem getLast?_mem_list {α : Type} {l : List α} {c : α}
    (h : l.getLast? = some c) : c ∈ l := by
  obtain ⟨hne, heq⟩ := List.mem_getLast?_eq_getLast (Option.mem_def.mpr h)
  exact heq ▸ List.getLast_mem hne

theorem classifyFuel_congr (isValid : List Nat → Bool) :
    ∀ n (s : List Chunk) (f1 f2 : Nat), scriptSize s ≤ n →
      scriptSize s < f1 → scriptSize s < f2 →
      classifyFuel isValid f1 s = classifyFuel isValid f2 s := by
  intro n
  induction n with
  | zero =>
    intro s f1 f2 hn h1 h2
    obtain ⟨a, rfl⟩ : ∃ a, f1 = a + 1 := ⟨f1 - 1, by omega⟩
    obtain ⟨b, rfl⟩ : ∃ b, f2 = b + 1 := ⟨f2 - 1, by omega⟩
    rw [classifyFuel_succ, classifyFuel_succ]
    have hsh : isScriptHashInFuel isValid a s = isScriptHashInFuel isValid b s := by
      unfold isScriptHashInFuel
      cases hlast : s.getLast? with
      | none => rfl
      | some c =>
        have hmem : c ∈ s := getLast?_mem_list hlast
        have hcs := chunk_mem_size_le c s hmem
        have : False := by simp only [chunkSize] at hcs; omega
        exact this.elim
    rw [hsh]
  | succ n ih =>
    intro s f1 f2 hn h1 h2
    obtain ⟨a, rfl⟩ : ∃ a, f1 = a + 1 := ⟨f1 - 1, by omega⟩
    obtain ⟨b, rfl⟩ : ∃ b, f2 = b + 1 := ⟨f2 - 1, by omega⟩
    rw [classifyFuel_succ, classifyFuel_succ]
    have hsh : isScriptHashInFuel isValid a s = isScriptHashInFuel isValid b s := by
      unfold isScriptHashInFuel
      cases hlast : s.getLast? with
      | none => rfl
      | some c =>
        have hmem : c ∈ s := getLast?_mem_list hlast
        have hcs := chunk_mem_size_le c s hmem
        dsimp only
        cases hbuf : c.buf with
        | none => rfl
        | some bb =>
          dsimp only
          cases hparse : Script.fromBuffer bb with
          | none => rfl
          | some s2 =>
            dsimp only
            have hs2 : scriptSize s2 ≤ bb.length := fromBuffer_size bb s2 hparse
            have hlt : scriptSize s2 < scriptSize s := by
              simp only [chunkSize, hbuf, Option.getD_some] at hcs
              omega
            rw [ih s2 a b (by omega) (by omega) (by omega)]
    rw [hsh]

/-- `isScriptHashIn` expressed through the top-level `classify`: the code
parses the last chunk's payload and asks whether its classification is
non-UNKNOWN. -/
theorem isScriptHashIn_eq (isValid : List Nat → Bool) (s : List Chunk) :
    Script.isScriptHashIn isValid s =
      (match s.getLast? with
       | none => false
       | some c =>
         match c.buf with
         | none => false
         | some b =>
           match Script.fromBuffer b with
           | none => false
           | some s2 => !(Script.classify isValid s2 == ScriptType.UNKNOWN)) := by
  unfold Script.isScriptHashIn isScriptHashInFuel Script.classify
  cases hlast : s.getLast? with
  | none => rfl
  | some c =>
    have hmem : c ∈ s := getLast?_mem_list hlast
    have hcs := chunk_mem_size_le c s hmem
    dsimp only
    cases hbuf : c.buf with
    | none => rfl
    | some bb =>
      dsimp only
      cases hparse : Script.fromBuffer bb with
      | none => rfl
      | some s2 =>
        dsimp only
        have hs2 : scriptSize s2 ≤ bb.length := fromBuffer_size bb s2 hparse
        have hlt : scriptSize s2 < scriptSize s := by
          simp only [chunkSize, hbuf, Option.getD_some] at hcs
          omega
        rw [classifyFuel_congr isValid (scriptSize s2) s2 (scriptSize s)
          (scriptSize s2 + 1) (le_refl _) hlt (Nat.lt_succ_self _)]

/-- Modelled from the spec (§6.5): `PublicKey.isValid` — publickey.js is not
under src/.  "Returns true iff bytes decodes as a valid SEC-encoded public
key (33 or 65 bytes)": 33 bytes with leading byte 2 or 3 (compressed), or 65
bytes with leading byte 4 (uncompressed).  Curve-point validity is abstracted
away; the general theorems quantify over the `isValid` collaborator and this
model is only used to evaluate concrete scripts whose buffers decide the
answer by length alone. -/
def modelPublicKeyIsValid (b : List Nat) : Bool :=
  (b.length == 33 && (b.headD 0 == 2 || b.headD 0 == 3)) ||
  (b.length == 65 && b.headD 0 == 4)

theorem modelPublicKeyIsValid_length (b : List Nat)
    (h : modelPublicKeyIsValid b = true) : b.length = 33 ∨ b.length = 65 := by
  simp only [modelPublicKeyIsValid, Bool.or_eq_true, Bool.and_eq_true,
    beq_iff_eq] at h
  rcases h with ⟨h, _⟩ | ⟨h, _⟩
  · exact Or.inl h
  · exact Or.inr h

theorem isPublicKeyHashOut_shape (s : List Chunk) :
    Script.isPublicKeyHashOut s = true ↔
      ∃ c0 c1 c2 c3 c4, s = [c0, c1, c2, c3, c4] ∧ c0.opcodenum = 118 ∧
        c1.opcodenum = 169 ∧ c2.buf.isSome = true ∧ c3.opcodenum = 136 ∧
        c4.opcodenum = 172 := by
  match s with
  | [] => simp [Script.isPublicKeyHashOut]
  | [_] => simp [Script.isPublicKeyHashOut]
  | [_, _] => simp [Script.isPublicKeyHashOut]
  | [_, _, _] => simp [Script.isPublicKeyHashOut]
  | [_, _, _, _] => simp [Script.isPublicKeyHashOut]
  | [c0, c1, c2, c3, c4] =>
    simp only [Script.isPublicKeyHashOut, Opcode.OP_DUP, Opcode.OP_HASH160,
      Opcode.OP_EQUALVERIFY, Opcode.OP_CHECKSIG, Bool.and_eq_true, beq_iff_eq]
    constructor
    · rintro ⟨⟨⟨⟨h0, h1⟩, h2⟩, h3⟩, h4⟩
      exact ⟨c0, c1, c2, c3, c4, rfl, h0, h1, h2, h3, h4⟩
    · rintro ⟨d0, d1, d2, d3, d4, heq, h0, h1, h2, h3, h4⟩
      obtain ⟨rfl, rfl, rfl, rfl, rfl⟩ : c0 = d0 ∧ c1 = d1 ∧ c2 = d2 ∧ c3 = d3 ∧ c4 = d4 := by
        simpa using heq
      exact ⟨⟨⟨⟨h0, h1⟩, h2⟩, h3⟩, h4⟩
  | _ :: _ :: _ :: _ :: _ :: _ :: _ => simp [Script.isPublicKeyHashOut]

theorem classify_pkhout_iff (v : List Nat → Bool) (s : List Chunk) :
    Script.classify v s = ScriptType.PUBKEYHASH_OUT ↔
      Script.isPublicKeyHashOut s = true := by
  rw [classify_unfold]
  constructor
  · intro h
    by_cases h3 : Script.isPublicKeyHashOut s = true
    · exact h3
    · exfalso
      revert h
      split_ifs <;> simp_all
  · intro h3
    match s with
    | [] => simp [Script.isPublicKeyHashOut] at h3
    | [_] => simp [Script.isPublicKeyHashOut] at h3
    | [_, _] => simp [Script.isPublicKeyHashOut] at h3
    | [_, _, _] => simp [Script.isPublicKeyHashOut] at h3
    | [_, _, _, _] => simp [Script.isPublicKeyHashOut] at h3
    | [c0, c1, c2, c3, c4] =>
      have h1 : Script.isPublicKeyOut v [c0, c1, c2, c3, c4] = false := rfl
      have h2 : Script.isPublicKeyIn [c0, c1, c2, c3, c4] = false := rfl
      rw [h1, h2, h3]
      simp
    | _ :: _ :: _ :: _ :: _ :: _ :: _ => simp [Script.isPublicKeyHashOut] at h3

/-- The third chunk of the claim C3 counterexample is a 19-byte push, not a
20-byte one. -/
def pkh19Chunks : List Chunk :=
  [⟨118, none, none⟩, ⟨169, none, none⟩,
   ⟨19, some (List.replicate 19 0), some 19⟩, ⟨136, none, none⟩,
   ⟨172, none, none⟩]

/-- C3 (counterexample): a 5-chunk script of the shape OP_DUP, OP_HASH160,
push, OP_EQUALVERIFY, OP_CHECKSIG whose third chunk's payload is 19 bytes
(not 20) IS classified PUBKEYHASH_OUT — the code never compares the payload
length to 20, refuting the claim's "is not classified PUBKEYHASH_OUT". -/
theorem script_classify_pkhout_19byte_counterexample :
    Script.fromBuffer ([118, 169, 19] ++ List.replicate 19 0 ++ [136, 172]) =
      some pkh19Chunks ∧
    ((pkh19Chunks.get? 2).bind Chunk.buf).map List.length = some 19 ∧
    Script.classify modelPublicKeyIsValid pkh19Chunks =
      ScriptType.PUBKEYHASH_OUT :=
  ⟨by decide, by decide, by decide⟩

/-- C3 (amended): `classify()` returns PUBKEYHASH_OUT exactly when the script
has 5 chunks of the shape OP_DUP, OP_HASH160, push (of any payload length —
the 20-byte requirement is not checked), OP_EQUALVERIFY, OP_CHECKSIG; this
holds for every `PublicKey.isValid` collaborator. -/
theorem script_classify_pkhout_amended (v : List Nat → Bool) (s : List Chunk) :
    Script.classify v s = ScriptType.PUBKEYHASH_OUT ↔
      ∃ c0 c1 c2 c3 c4, s = [c0, c1, c2, c3, c4] ∧ c0.opcodenum = 118 ∧
        c1.opcodenum = 169 ∧ c2.buf.isSome = true ∧ c3.opcodenum = 136 ∧
        c4.opcodenum = 172 :=
  (classify_pkhout_iff v s).trans (isPublicKeyHashOut_shape s)

/-- Modelled from the spec's words (claim C4 source): the §4.5 recognition
rules evaluated in the spec's stated definition order — PUBKEYHASH_OUT,
PUBKEYHASH_IN, PUBKEY_OUT, PUBKEY_IN, SCRIPTHASH_OUT, SCRIPTHASH_IN,
MULTISIG_OUT, MULTISIG_IN, DATA_OUT — first match wins, with the same
predicates as the code.  Used only to compare the spec's claimed order
against the code's actual order. -/
def specOrderClassifyFuel (isValid : List Nat → Bool) : Nat → List Chunk → ScriptType
  | 0, _ => ScriptType.UNKNOWN
  | fuel + 1, s =>
    if Script.isPublicKeyHashOut s then ScriptType.PUBKEYHASH_OUT
    else if Script.isPublicKeyHashIn isValid s then ScriptType.PUBKEYHASH_IN
    else if Script.isPublicKeyOut isValid s then ScriptType.PUBKEY_OUT
    else if Script.isPublicKeyIn s then ScriptType.PUBKEY_IN
    else if Script.isScriptHashOut s then ScriptType.SCRIPTHASH_OUT
    else if (match s.getLast? with
             | none => false
             | some c =>
               match c.buf with
               | none => false
               | some b =>
                 match Script.fromBuffer b with
                 | none => false
                 | some s2 => !(specOrderClassifyFuel isValid fuel s2 == ScriptType.UNKNOWN))
      then ScriptType.SCRIPTHASH_IN
    else if Script.isMultisigOut s then ScriptType.MULTISIG_OUT
    else if Script.isMultisigIn s then ScriptType.MULTISIG_IN
    else if Script.isDataOut s then ScriptType.DATA_OUT
    else ScriptType.UNKNOWN

/-- Spec-order classification at sufficient fuel. -/
def specOrderClassify (isValid : List Nat → Bool) (s : List Chunk) : ScriptType :=
  specOrderClassifyFuel isValid (scriptSize s + 1) s

/-- Redeem-style payload of the C4 counterexample: `OP_1, push(67 bytes),
OP_1, OP_CHECKMULTISIG` — 71 bytes that parse to a MULTISIG_OUT shape. -/
def c4RedeemBytes : List Nat := [81, 67] ++ List.replicate 67 0 ++ [81, 174]

/-- The C4 counterexample script: `OP_0` then a 71-byte push of
`c4RedeemBytes` (bytes `00 47` ++ payload) — it matches both the MULTISIG_IN
and the SCRIPTHASH_IN shapes. -/
def c4Chunks : List Chunk :=
  [⟨0, none, none⟩, ⟨71, some c4RedeemBytes, some 71⟩]

/-- C4 (counterexample): the code iterates `Script.identifiers` in insertion
order (PUBKEY_OUT, PUBKEY_IN, PUBKEYHASH_OUT, PUBKEYHASH_IN, MULTISIG_OUT,
MULTISIG_IN, SCRIPTHASH_OUT, SCRIPTHASH_IN, DATA_OUT), not in the spec's
definition order.  On this parseable script the first spec-order match is
SCRIPTHASH_IN while `classify` returns MULTISIG_IN, so the claim's "evaluates
the recognition rules in the spec's definition order and returns the tag of
the first matching rule" is false. -/
theorem script_classify_order_counterexample :
    Script.fromBuffer ([0, 71] ++ c4RedeemBytes) = some c4Chunks ∧
    Script.classify modelPublicKeyIsValid c4Chunks = ScriptType.MULTISIG_IN ∧
    specOrderClassify modelPublicKeyIsValid c4Chunks = ScriptType.SCRIPTHASH_IN ∧
    (ScriptType.MULTISIG_IN ≠ ScriptType.SCRIPTHASH_IN) :=
  ⟨by decide, by decide, by decide, by decide⟩

/-- Generic first-match dispatch over an ordered list of (tag, predicate)
pairs; returns UNKNOWN when nothing matches (classify lines 367-374). -/
def firstMatchTag : List (ScriptType × (List Chunk → Bool)) → List Chunk → ScriptType
  | [], _ => ScriptType.UNKNOWN
  | (t, p) :: rest, s => if p s then t else firstMatchTag rest s

/-- `Script.identifiers` (script.js lines 352-361) as an ordered association
list: JS object string keys iterate in insertion order. -/
def Script.identifiers (isValid : List Nat → Bool) :
    List (ScriptType × (List Chunk → Bool)) :=
  [(ScriptType.PUBKEY_OUT, Script.isPublicKeyOut isValid),
   (ScriptType.PUBKEY_IN, Script.isPublicKeyIn),
   (ScriptType.PUBKEYHASH_OUT, Script.isPublicKeyHashOut),
   (ScriptType.PUBKEYHASH_IN, Script.isPublicKeyHashIn isValid),
   (ScriptType.MULTISIG_OUT, Script.isMultisigOut),
   (ScriptType.MULTISIG_IN, Script.isMultisigIn),
   (ScriptType.SCRIPTHASH_OUT, Script.isScriptHashOut),
   (ScriptType.SCRIPTHASH_IN, Script.isScriptHashIn isValid),
   (ScriptType.DATA_OUT, Script.isDataOut)]

/-- C4 (amended): `classify()` evaluates the identifiers in the code's
insertion order — PUBKEY_OUT, PUBKEY_IN, PUBKEYHASH_OUT, PUBKEYHASH_IN,
MULTISIG_OUT, MULTISIG_IN, SCRIPTHASH_OUT, SCRIPTHASH_IN, DATA_OUT — and
returns the tag of the first matching rule; in particular, for every
`PublicKey.isValid` collaborator honouring the 33-or-65-byte contract and
every script matching both the PUBKEYHASH_IN and SCRIPTHASH_IN shapes,
`classify()` returns PUBKEYHASH_IN (PUBKEYHASH_IN still precedes
SCRIPTHASH_IN in the code's order). -/
theorem script_classify_code_order (v : List Nat → Bool)
    (hv : ∀ b, v b = true → b.length = 33 ∨ b.length = 65) (s : List Chunk) :
    Script.classify v s = firstMatchTag (Script.identifiers v) s ∧
    (Script.isPublicKeyHashIn v s = true → Script.isScriptHashIn v s = true →
      Script.classify v s = ScriptType.PUBKEYHASH_IN) := by
  constructor
  · rw [classify_unfold]
    simp [firstMatchTag, Script.identifiers]
  · intro hin _hsh
    rw [classify_unfold]
    match s with
    | [] => simp [Script.isPublicKeyHashIn] at hin
    | [_] => simp [Script.isPublicKeyHashIn] at hin
    | [c0, c1] =>
      simp only [Script.isPublicKeyHashIn] at hin
      cases hbuf0 : c0.buf with
      | none => rw [hbuf0] at hin; simp at hin
      | some b0 =>
        rw [hbuf0] at hin
        cases hbuf1 : c1.buf with
        | none => rw [hbuf1] at hin; simp at hin
        | some b1 =>
          rw [hbuf1] at hin
          simp only [Bool.and_eq_true, decide_eq_true_eq] at hin
          obtain ⟨⟨hge, hle⟩, hvb1⟩ := hin
          have hv0 : v b0 = false := by
            by_contra hc
            have hb0 : v b0 = true := by
              revert hc; cases v b0 <;> simp
            have := hv b0 hb0
            omega
          have hout : Script.isPublicKeyOut v [c0, c1] = false := by
            simp [Script.isPublicKeyOut, hbuf0, hv0]
          have hin1 : Script.isPublicKeyIn [c0, c1] = false := rfl
          have hhout : Script.isPublicKeyHashOut [c0, c1] = false := rfl
          have hpkh : Script.isPublicKeyHashIn v [c0, c1] = true := by
            simp [Script.isPublicKeyHashIn, hbuf0, hbuf1, hge, hle, hvb1]
          rw [hout, hin1, hhout, hpkh]
          simp
    | _ :: _ :: _ :: _ => simp [Script.isPublicKeyHashIn] at hin

/-- A 33-byte buffer that the modelled `PublicKey.isValid` accepts (leading
byte 2) and that also parses to a script classified SCRIPTHASH_IN: chunks
`push2, push27, push1(OP_RETURN byte)` whose last payload `6a` parses to the
DATA_OUT script `[OP_RETURN]`. -/
def c4Pubkey33 : List Nat := [2, 0, 0, 27] ++ List.replicate 27 0 ++ [1, 106]

/-- A script matching both the PUBKEYHASH_IN and the SCRIPTHASH_IN shapes:
a 71-byte push (signature-sized) followed by a push of `c4Pubkey33`. -/
def c4BothChunks : List Chunk :=
  [⟨71, some (List.replicate 71 0), some 71⟩, ⟨33, some c4Pubkey33, some 33⟩]

/-- Witness for C4 (amended claim) at a concrete ambiguous script. -/
theorem script_classify_code_order_witness :
    Script.classify modelPublicKeyIsValid c4BothChunks = ScriptType.PUBKEYHASH_IN ∧
    Script.classify modelPublicKeyIsValid c4BothChunks =
      firstMatchTag (Script.identifiers modelPublicKeyIsValid) c4BothChunks :=
  ⟨(script_classify_code_order modelPublicKeyIsValid modelPublicKeyIsValid_length
      c4BothChunks).2 (by decide) (by decide),
   (script_classify_code_order modelPublicKeyIsValid modelPublicKeyIsValid_length
      c4BothChunks).1⟩

/-- `Script.prototype.getPublicKeyHash` (script.js lines 232-235).
`$.checkState` is modelled from the spec (§7, util/preconditions.js is not
under src/): it throws `PreconditionFailed` exactly when its condition is
false; the throwing call is encoded as `none`.  Otherwise the function
returns `chunks[2].buf`. -/
def Script.getPublicKeyHash (s : List Chunk) : Option (List Nat) :=
  if Script.isPublicKeyHashOut s then
    match s.get? 2 with
    | some c => c.buf
    | none => none
  else none

/-- C9: `getPublicKeyHash` fails with PreconditionFailed iff the script is
not classified PUBKEYHASH_OUT (for every `PublicKey.isValid` collaborator);
when it is, the call returns the third chunk's payload.  The function reads
the chunk list and never mutates it (the embedding is a pure function of the
script). -/
theorem script_getPublicKeyHash_spec (v : List Nat → Bool) (s : List Chunk) :
    (Script.getPublicKeyHash s = none ↔
      ¬ Script.classify v s = ScriptType.PUBKEYHASH_OUT) ∧
    (Script.classify v s = ScriptType.PUBKEYHASH_OUT →
      ∃ c2, s.get? 2 = some c2 ∧ c2.buf.isSome = true ∧
        Script.getPublicKeyHash s = c2.buf) := by
  by_cases h : Script.isPublicKeyHashOut s = true
  · have hcl : Script.classify v s = ScriptType.PUBKEYHASH_OUT :=
      (classify_pkhout_iff v s).mpr h
    obtain ⟨c0, c1, c2, c3, c4, rfl, _, _, hbuf, _, _⟩ :=
      (isPublicKeyHashOut_shape _).mp h
    have hret : Script.getPublicKeyHash [c0, c1, c2, c3, c4] = c2.buf := by
      simp [Script.getPublicKeyHash, h]
    constructor
    · rw [hret]
      simp only [hcl, not_true_eq_false, iff_false]
      intro hnone
      rw [hnone] at hbuf
      simp at hbuf
    · intro _
      exact ⟨c2, rfl, hbuf, hret⟩
  · have hcl : ¬ Script.classify v s = ScriptType.PUBKEYHASH_OUT := by
      intro hc
      exact h ((classify_pkhout_iff v s).mp hc)
    have hret : Script.getPublicKeyHash s = none := by
      simp only [Script.getPublicKeyHash]
      rw [if_neg (by simpa using h)]
    exact ⟨by simp [hret, hcl], fun hc => absurd hc hcl⟩

/-- The spec's E1 script: `76a914` ++ 20 zero bytes ++ `88ac`. -/
def e1Chunks : List Chunk :=
  [⟨118, none, none⟩, ⟨169, none, none⟩,
   ⟨20, some (List.replicate 20 0), some 20⟩, ⟨136, none, none⟩,
   ⟨172, none, none⟩]

/-- Witness for C9 at the spec's E1 script (classified PUBKEYHASH_OUT;
`getPublicKeyHash` returns the 20 zero bytes). -/
theorem script_getPublicKeyHash_spec_witness :
    ∃ c2, e1Chunks.get? 2 = some c2 ∧ c2.buf.isSome = true ∧
      Script.getPublicKeyHash e1Chunks = c2.buf :=
  (script_getPublicKeyHash_spec modelPublicKeyIsValid e1Chunks).2 (by decide)

/-- `Script.prototype._insertAtPosition` (script.js lines 452-458):
`unshift` when prepending, `push` when appending. -/
def Script._insertAtPosition (c : Chunk) (prepend : Bool) (s : List Chunk) : List Chunk :=
  if prepend then c :: s else s ++ [c]

/-- `Script.prototype._addOpcode` (script.js lines 460-473) after the opcode
argument has been resolved to its number: insert a bare chunk
`{opcodenum}`. -/
def Script._addOpcode (s : List Chunk) (op : Nat) (prepend : Bool) : List Chunk :=
  Script._insertAtPosition ⟨op, none, none⟩ prepend s

/-- `Script.prototype._addBuffer` (script.js lines 475-497): choose the push
opcode from the payload length, insert `{buf, len, opcodenum}`; an empty
payload is a no-op and a payload of 2^32 bytes or more throws
(`PayloadTooLarge`), encoded as `none`. -/
def Script._addBuffer (s : List Chunk) (buf : List Nat) (prepend : Bool) :
    Option (List Chunk) :=
  if buf.length = 0 then some s
  else if 0 < buf.length ∧ buf.length < Opcode.OP_PUSHDATA1 then
    some (Script._insertAtPosition ⟨buf.length, some buf, some buf.length⟩ prepend s)
  else if buf.length < 2 ^ 8 then
    some (Script._insertAtPosition
      ⟨Opcode.OP_PUSHDATA1, some buf, some buf.length⟩ prepend s)
  else if buf.length < 2 ^ 16 then
    some (Script._insertAtPosition
      ⟨Opcode.OP_PUSHDATA2, some buf, some buf.length⟩ prepend s)
  else if buf.length < 2 ^ 32 then
    some (Script._insertAtPosition
      ⟨Opcode.OP_PUSHDATA4, some buf, some buf.length⟩ prepend s)
  else none

theorem addBuffer_cases (s : List Chunk) (buf : List Nat) (p : Bool) :
    (buf.length = 0 → Script._addBuffer s buf p = some s) ∧
    (0 < buf.length → buf.length < 76 →
      Script._addBuffer s buf p =
        some (Script._insertAtPosition ⟨buf.length, some buf, some buf.length⟩ p s)) ∧
    (76 ≤ buf.length → buf.length < 2 ^ 8 →
      Script._addBuffer s buf p =
        some (Script._insertAtPosition ⟨76, some buf, some buf.length⟩ p s)) ∧
    (2 ^ 8 ≤ buf.length → buf.length < 2 ^ 16 →
      Script._addBuffer s buf p =
        some (Script._insertAtPosition ⟨77, some buf, some buf.length⟩ p s)) ∧
    (2 ^ 16 ≤ buf.length → buf.length < 2 ^ 32 →
      Script._addBuffer s buf p =
        some (Script._insertAtPosition ⟨78, some buf, some buf.length⟩ p s)) ∧
    (2 ^ 32 ≤ buf.length → Script._addBuffer s buf p = none) := by
  refine ⟨?_, ?_, ?_, ?_, ?_, ?_⟩
  · intro h
    simp [Script._addBuffer, h]
  · intro h1 h2
    simp only [Script._addBuffer, Opcode.OP_PUSHDATA1]
    rw [if_neg (by omega), if_pos (by exact ⟨h1, h2⟩)]
  · intro h1 h2
    simp only [Script._addBuffer, Opcode.OP_PUSHDATA1]
    rw [if_neg (by omega), if_neg (by omega), if_pos h2]
  · intro h1 h2
    simp only [Script._addBuffer, Opcode.OP_PUSHDATA1, Opcode.OP_PUSHDATA2]
    rw [if_neg (by omega), if_neg (by omega), if_neg (by omega), if_pos h2]
  · intro h1 h2
    simp only [Script._addBuffer, Opcode.OP_PUSHDATA1, Opcode.OP_PUSHDATA2,
      Opcode.OP_PUSHDATA4]
    rw [if_neg (by omega), if_neg (by omega), if_neg (by omega),
      if_neg (by omega), if_pos h2]
  · intro h1
    simp only [Script._addBuffer, Opcode.OP_PUSHDATA1, Opcode.OP_PUSHDATA2,
      Opcode.OP_PUSHDATA4]
    rw [if_neg (by omega), if_neg (by omega), if_neg (by omega),
      if_neg (by omega), if_neg (by omega)]

/-- C5: for every payload of length L added via add/prepend (`_addBuffer`):
L = 0 leaves the script unchanged; 0 < L < 0x4c inserts a push chunk with
opcode L; else L < 2^8 gives OP_PUSHDATA1, L < 2^16 gives OP_PUSHDATA2,
L < 2^32 gives OP_PUSHDATA4; larger payloads fail with PayloadTooLarge.  The
inserted chunk's payload is the input and its declared length is L. -/
theorem script_addBuffer_spec (s : List Chunk) (buf : List Nat) (p : Bool) :
    (buf.length = 0 → Script._addBuffer s buf p = some s) ∧
    (0 < buf.length → buf.length < 76 →
      Script._addBuffer s buf p =
        some (Script._insertAtPosition ⟨buf.length, some buf, some buf.length⟩ p s)) ∧
    (76 ≤ buf.length → buf.length < 2 ^ 8 →
      Script._addBuffer s buf p =
        some (Script._insertAtPosition ⟨76, some buf, some buf.length⟩ p s)) ∧
    (2 ^ 8 ≤ buf.length → buf.length < 2 ^ 16 →
      Script._addBuffer s buf p =
        some (Script._insertAtPosition ⟨77, some buf, some buf.length⟩ p s)) ∧
    (2 ^ 16 ≤ buf.length → buf.length < 2 ^ 32 →
      Script._addBuffer s buf p =
        some (Script._insertAtPosition ⟨78, some buf, some buf.length⟩ p s)) ∧
    (2 ^ 32 ≤ buf.length → Script._addBuffer s buf p = none) :=
  addBuffer_cases s buf p

/-- Witness for C5: every region of the minimum-encoding rule exercised at a
concrete payload (the 2^32 region symbolically via `List.replicate`). -/
theorem script_addBuffer_spec_witness :
    Script._addBuffer [] [7, 8, 9] false =
      some (Script._insertAtPosition ⟨3, some [7, 8, 9], some 3⟩ false []) ∧
    Script._addBuffer [] (List.replicate 80 1) false =
      some (Script._insertAtPosition
        ⟨76, some (List.replicate 80 1), some (List.replicate 80 1).length⟩ false []) ∧
    Script._addBuffer [] (List.replicate 300 1) true =
      some (Script._insertAtPosition
        ⟨77, some (List.replicate 300 1), some (List.replicate 300 1).length⟩ true []) ∧
    Script._addBuffer [] (List.replicate 70000 1) true =
      some (Script._insertAtPosition
        ⟨78, some (List.replicate 70000 1), some (List.replicate 70000 1).length⟩ true []) ∧
    Script._addBuffer [] (List.replicate (2 ^ 32) 1) true = none ∧
    Script._addBuffer [⟨0, none, none⟩] [] true = some [⟨0, none, none⟩] := by
  refine ⟨?_, ?_, ?_, ?_, ?_, ?_⟩
  · exact (script_addBuffer_spec [] [7, 8, 9] false).2.1 (by simp) (by simp)
  · exact (script_addBuffer_spec [] (List.replicate 80 1) false).2.2.1
      (by rw [List.length_replicate]; norm_num)
      (by rw [List.length_replicate]; norm_num)
  · exact (script_addBuffer_spec [] (List.replicate 300 1) true).2.2.2.1
      (by rw [List.length_replicate]; norm_num)
      (by rw [List.length_replicate]; norm_num)
  · exact (script_addBuffer_spec [] (List.replicate 70000 1) true).2.2.2.2.1
      (by rw [List.length_replicate]; norm_num)
      (by rw [List.length_replicate]; norm_num)
  · exact (script_addBuffer_spec [] (List.replicate (2 ^ 32) 1) true).2.2.2.2.2
      (by rw [List.length_replicate])
  · exact (script_addBuffer_spec [⟨0, none, none⟩] [] true).1 (by simp)

/-- `Script.buildDataOut` (script.js lines 599-607) for a byte payload:
append OP_RETURN to an empty script, then append the payload buffer. -/
def Script.buildDataOut (data : List Nat) : Option (List Chunk) :=
  Script._addBuffer (Script._addOpcode [] Opcode.OP_RETURN false) data false

/-- C6: `isDataOut` holds exactly when the first chunk is OP_RETURN and the
script has either one chunk or two chunks with the second a push of at most
40 bytes; consequently `buildDataOut(data).isDataOut()` is true iff
`data.length ≤ 40` (whenever `buildDataOut` returns at all, i.e. for every
payload below the 2^32 PayloadTooLarge bound). -/
theorem script_isDataOut_spec :
    (∀ s : List Chunk, Script.isDataOut s = true ↔
      ((∃ c0 t, s = c0 :: t ∧ c0.opcodenum = 106) ∧
       (s.length = 1 ∨ (s.length = 2 ∧
         ∃ c1 b, s.get? 1 = some c1 ∧ c1.buf = some b ∧ b.length ≤ 40)))) ∧
    (∀ (data : List Nat) (s : List Chunk), Script.buildDataOut data = some s →
      (Script.isDataOut s = true ↔ data.length ≤ 40)) := by
  constructor
  · intro s
    match s with
    | [] => simp [Script.isDataOut]
    | [c0] =>
      simp [Script.isDataOut, Opcode.OP_RETURN]
    | [c0, c1] =>
      cases hb : c1.buf with
      | none =>
        simp [Script.isDataOut, Opcode.OP_RETURN, hb, jsChunkLengthField,
          jsChunksLenField]
      | some b =>
        simp [Script.isDataOut, Opcode.OP_RETURN, hb, jsChunkLengthField,
          jsChunksLenField]
    | c0 :: c1 :: c2 :: t =>
      simp [Script.isDataOut]
  · intro data s hs
    have hcases := addBuffer_cases (Script._addOpcode [] Opcode.OP_RETURN false) data false
    by_cases h0 : data.length = 0
    · rw [Script.buildDataOut, hcases.1 h0] at hs
      obtain rfl : Script._addOpcode [] Opcode.OP_RETURN false = s := by
        simpa using hs
      have hd : data = [] := List.length_eq_zero.mp h0
      subst hd
      simp [Script._addOpcode, Script._insertAtPosition, Script.isDataOut,
        Opcode.OP_RETURN]
    · by_cases h1 : data.length < 76
      · rw [Script.buildDataOut, hcases.2.1 (by omega) h1] at hs
        obtain rfl := Option.some.inj hs
        simp [Script._addOpcode, Script._insertAtPosition, Script.isDataOut,
          Opcode.OP_RETURN, jsChunkLengthField, jsChunksLenField]
      · by_cases h2 : data.length < 2 ^ 8
        · rw [Script.buildDataOut, hcases.2.2.1 (by omega) h2] at hs
          obtain rfl := Option.some.inj hs
          simp only [Script._addOpcode, Script._insertAtPosition, Bool.false_eq_true,
            if_false, List.nil_append, Script.isDataOut, Opcode.OP_RETURN,
            jsChunkLengthField, jsChunksLenField]
          simp
        · by_cases h3 : data.length < 2 ^ 16
          · rw [Script.buildDataOut, hcases.2.2.2.1 (by omega) h3] at hs
            obtain rfl := Option.some.inj hs
            simp only [Script._addOpcode, Script._insertAtPosition, Bool.false_eq_true,
              if_false, List.nil_append, Script.isDataOut, Opcode.OP_RETURN,
              jsChunkLengthField, jsChunksLenField]
            simp
          · by_cases h4 : data.length < 2 ^ 32
            · rw [Script.buildDataOut, hcases.2.2.2.2.1 (by omega) h4] at hs
              obtain rfl := Option.some.inj hs
              simp only [Script._addOpcode, Script._insertAtPosition, Bool.false_eq_true,
                if_false, List.nil_append, Script.isDataOut, Opcode.OP_RETURN,
                jsChunkLengthField, jsChunksLenField]
              simp
            · rw [Script.buildDataOut, hcases.2.2.2.2.2 (by omega)] at hs
              exact absurd hs (by simp)

/-- Witness for C6 at the spec's E3 payload "Hello" (5 bytes ≤ 40). -/
theorem script_isDataOut_spec_witness :
    Script.isDataOut
      [⟨106, none, none⟩, ⟨5, some [72, 101, 108, 108, 111], some 5⟩] = true := by
  have h := script_isDataOut_spec.2 [72, 101, 108, 108, 111]
    [⟨106, none, none⟩, ⟨5, some [72, 101, 108, 108, 111], some 5⟩] (by decide)
  exact h.mpr (by decide)

/-- `Script.buildMultisigOut` (script.js lines 521-539).  A public key is
identified with its canonical SEC serialization (`PublicKey(pk)` normalises
and `toBuffer()` serialises; publickey.js is not under src/, the spec §6.5
calls `toBuffer` the canonical serialization).  Lodash `sortBy` on
`pubkey.toString('hex')` sorts by the lowercase-hex rendering; since every
byte renders as exactly two hex digits in value order, that coincides with
the lexicographic order on the serialized byte lists used here.  `smallInt`
rejects thresholds outside [0,16] and `_addBuffer` rejects oversized pushes,
both encoded as `none`. -/
def Script.buildMultisigOut (pubkeys : List (List Nat)) (m : Nat)
    (noSorting : Bool) : Option (List Chunk) := do
  let opM ← Opcode.smallInt m
  let s0 := Script._addOpcode [] opM false
  let sorted := if noSorting then pubkeys
    else List.insertionSort (· ≤ ·) pubkeys
  let s1 ← sorted.foldlM (fun s pk => Script._addBuffer s pk false) s0
  let opN ← Opcode.smallInt pubkeys.length
  pure (Script._addOpcode (Script._addOpcode s1 opN false)
    Opcode.OP_CHECKMULTISIG false)

/-- C7: for every two permutations of the same public-key set,
`buildMultisigOut` without `noSorting` produces the same script — and hence
the same serialized bytes — because the keys are sorted ascending by their
hex serialization before insertion. -/
theorem script_buildMultisigOut_perm (p1 p2 : List (List Nat)) (m : Nat)
    (hperm : p1.Perm p2) :
    Script.buildMultisigOut p1 m false = Script.buildMultisigOut p2 m false ∧
    (Script.buildMultisigOut p1 m false).map Script.toBuffer =
      (Script.buildMultisigOut p2 m false).map Script.toBuffer := by
  have hsort : List.insertionSort (· ≤ ·) p1 = List.insertionSort (· ≤ ·) p2 :=
    List.eq_of_perm_of_sorted
      ((List.perm_insertionSort _ p1).trans
        (hperm.trans (List.perm_insertionSort _ p2).symm))
      (List.sorted_insertionSort _ p1) (List.sorted_insertionSort _ p2)
  have h1 : Script.buildMultisigOut p1 m false = Script.buildMultisigOut p2 m false := by
    simp only [Script.buildMultisigOut, Bool.false_eq_true, if_false, hsort,
      hperm.length_eq]
  exact ⟨h1, by rw [h1]⟩

/-- Witness for C7: a 2-of-3 multisig from three keys in two scrambled
orders serializes identically (spec scenario E4, with toy keys). -/
theorem script_buildMultisigOut_perm_witness :
    Script.buildMultisigOut [[9, 9], [2, 2], [5]] 2 false =
      Script.buildMultisigOut [[2, 2], [5], [9, 9]] 2 false :=
  (script_buildMultisigOut_perm [[9, 9], [2, 2], [5]] [[2, 2], [5], [9, 9]] 2
    (by decide)).1

/-!
## `Script.prototype._addByType` (script.js lines 434-450) — claim C10

`add`/`prepend` dispatch on the runtime type of the argument.  The embedding
enumerates the possible JS argument shapes and transliterates each runtime
test: `typeof obj === 'string'`, `typeof obj === 'number'`,
`obj.constructor.name === 'Opcode'`, `BufferUtil.isBuffer(obj)`,
`typeof obj === 'object'`, `obj instanceof Script`.  A Script instance is an
object, so `typeof obj === 'object'` is true for it and the
`obj instanceof Script` test can never be reached.
-/

inductive AddArg where
  | strArg (s : List Char)
  | numArg (n : Nat)
  | opcodeArg (n : Nat)
  | bufferArg (b : List Nat)
  | scriptArg (chunks : List Chunk)
  | chunkArg (c : Chunk)
deriving Repr, DecidableEq

/-- `typeof obj === 'string'`. -/
def jsTypeofString : AddArg → Bool
  | .strArg _ => true
  | _ => false

/-- `typeof obj === 'number'`. -/
def jsTypeofNumber : AddArg → Bool
  | .numArg _ => true
  | _ => false

/-- `obj.constructor && obj.constructor.name === 'Opcode'`: true exactly for
Opcode instances (Buffers report 'Buffer', Scripts 'Script', chunk records
'Object'). -/
def jsConstructorNameIsOpcode : AddArg → Bool
  | .opcodeArg _ => true
  | _ => false

/-- `BufferUtil.isBuffer(obj)`. -/
def jsIsBuffer : AddArg → Bool
  | .bufferArg _ => true
  | _ => false

/-- `typeof obj === 'object'`: true for every non-primitive — Opcode
instances, Buffers, Script instances and chunk records alike. -/
def jsTypeofObject : AddArg → Bool
  | .opcodeArg _ => true
  | .bufferArg _ => true
  | .scriptArg _ => true
  | .chunkArg _ => true
  | _ => false

/-- `obj instanceof Script`. -/
def jsInstanceofScript : AddArg → Bool
  | .scriptArg _ => true
  | _ => false

/-- The action `_addByType` selects for an argument. -/
inductive DispatchAction where
  | addOpcodeAct (a : AddArg)
  | addBufferAct (b : List Nat)
  | insertAct (a : AddArg)
  | concatAct (chunks : List Chunk)
  | invalidAct
deriving Repr, DecidableEq

/-- `Script.prototype._addByType`: the dispatch if-chain in source order. -/
def Script._addByType (obj : AddArg) : DispatchAction :=
  if jsTypeofString obj then DispatchAction.addOpcodeAct obj
  else if jsTypeofNumber obj then DispatchAction.addOpcodeAct obj
  else if jsConstructorNameIsOpcode obj then DispatchAction.addOpcodeAct obj
  else if jsIsBuffer obj then
    (match obj with
     | .bufferArg b => DispatchAction.addBufferAct b
     | _ => DispatchAction.invalidAct)
  else if jsTypeofObject obj then DispatchAction.insertAct obj
  else if jsInstanceofScript obj then
    (match obj with
     | .scriptArg cs => DispatchAction.concatAct cs
     | _ => DispatchAction.invalidAct)
  else DispatchAction.invalidAct

/-- An element of the `chunks` array as it can actually occur at runtime:
a chunk record, or any other object inserted verbatim by
`_insertAtPosition` — in particular a whole Script instance. -/
inductive ScriptElem where
  | chunkElem (c : Chunk)
  | scriptElem (chunks : List Chunk)
deriving Repr, DecidableEq

/-- `_insertAtPosition` over runtime chunk-array elements. -/
def insertAtPositionElem (e : ScriptElem) (prepend : Bool)
    (chunks : List ScriptElem) : List ScriptElem :=
  if prepend then e :: chunks else chunks ++ [e]

/-- C10: passing a Script `s2` to add/prepend takes the generic-object
branch (`typeof obj === 'object'`) before the `instanceof Script` branch, so
`s2` itself is inserted into the chunk array as a single element (the array
grows by exactly one and contains the Script object); the concatenation
branch is unreachable for every possible argument. -/
theorem script_addByType_script_arg (s2 : List Chunk) :
    Script._addByType (AddArg.scriptArg s2) =
      DispatchAction.insertAct (AddArg.scriptArg s2) ∧
    (∀ (a : AddArg) (cs : List Chunk),
      Script._addByType a ≠ DispatchAction.concatAct cs) ∧
    (∀ (chunks : List ScriptElem) (p : Bool),
      (insertAtPositionElem (ScriptElem.scriptElem s2) p chunks).length =
        chunks.length + 1 ∧
      ScriptElem.scriptElem s2 ∈
        insertAtPositionElem (ScriptElem.scriptElem s2) p chunks) := by
  refine ⟨rfl, ?_, ?_⟩
  · intro a cs
    cases a <;> simp [Script._addByType, jsTypeofString, jsTypeofNumber,
      jsConstructorNameIsOpcode, jsIsBuffer, jsTypeofObject, jsInstanceofScript]
  · intro chunks p
    cases p <;> simp [insertAtPositionElem]

/-- Witness for C10 at a concrete one-chunk script argument. -/
theorem script_addByType_script_arg_witness :
    Script._addByType (AddArg.scriptArg [⟨81, none, none⟩]) =
      DispatchAction.insertAct (AddArg.scriptArg [⟨81, none, none⟩]) ∧
    Script._addByType (AddArg.scriptArg [⟨81, none, none⟩]) ≠
      DispatchAction.concatAct [⟨81, none, none⟩] ∧
    (insertAtPositionElem (ScriptElem.scriptElem [⟨81, none, none⟩]) false
      []).length = ([] : List ScriptElem).length + 1 :=
  ⟨(script_addByType_script_arg [⟨81, none, none⟩]).1,
   (script_addByType_script_arg [⟨81, none, none⟩]).2.1 _ _,
   ((script_addByType_script_arg [⟨81, none, none⟩]).2.2 [] false).1⟩

/-!
## Text form (script.js lines 129-201) — claim C8

JS strings are embedded as `List Char`.  `toString` builds `' ' + token`
pieces and trims the leading space (`substr(1)`), which equals joining the
token list with single spaces; `fromString` splits on `' '` (JS
`''.split(' ')` gives `['']`, which the splitter below reproduces) and
resolves each token against the opcode registry.
-/

/-- `'0' ≤ c ≤ '9'`. -/
def isDigitChar (c : Char) : Bool := decide ('0' ≤ c) && decide (c ≤ '9')

/-- Hexadecimal digit (either case). -/
def isHexDigitChar (c : Char) : Bool :=
  isDigitChar c || (decide ('a' ≤ c) && decide (c ≤ 'f')) ||
    (decide ('A' ≤ c) && decide (c ≤ 'F'))

/-- Numeric value of a decimal digit character. -/
def digitVal (c : Char) : Nat := c.toNat - 48

/-- Numeric value of a hexadecimal digit character. -/
def hexDigitVal (c : Char) : Nat :=
  if isDigitChar c then c.toNat - 48
  else if decide ('a' ≤ c) && decide (c ≤ 'f') then c.toNat - 87
  else c.toNat - 55

/-- The decimal digit character for `n < 10`. -/
def digitChar (n : Nat) : Char := Char.ofNat (48 + n)

/-- The lowercase hexadecimal digit character for `n < 16` (JS
`toString(16)` and `Buffer.toString('hex')` are lowercase). -/
def hexChar (n : Nat) : Char :=
  if n < 10 then Char.ofNat (48 + n) else Char.ofNat (87 + n)

/-- Decimal rendering of a Nat (JS number-to-string), with fuel. -/
def natToDecAux : Nat → Nat → List Char
  | 0, _ => []
  | fuel + 1, n =>
    if n < 10 then [digitChar n]
    else natToDecAux fuel (n / 10) ++ [digitChar (n % 10)]

/-- Decimal rendering of a Nat (JS `String(n)` for a nonnegative integer). -/
def natToDec (n : Nat) : List Char := natToDecAux (n + 1) n

/-- Hexadecimal rendering of a Nat (JS `n.toString(16)`), with fuel. -/
def natToHexAux : Nat → Nat → List Char
  | 0, _ => []
  | fuel + 1, n =>
    if n < 16 then [hexChar n]
    else natToHexAux fuel (n / 16) ++ [hexChar (n % 16)]

/-- Hexadecimal rendering of a Nat (JS `n.toString(16)`, lowercase, no
padding). -/
def natToHex (n : Nat) : List Char := natToHexAux (n + 1) n

/-- `Buffer.prototype.toString('hex')`: two lowercase hex digits per byte. -/
def bytesToHex : List Nat → List Char
  | [] => []
  | b :: t => hexChar (b / 16 % 16) :: hexChar (b % 16) :: bytesToHex t

/-- `new Buffer(str, 'hex')`: decode hex digit pairs; an odd-length or
non-hex string throws (node 0.x `Invalid hex string`), encoded as `none`. -/
def hexPairsToBytes : List Char → Option (List Nat)
  | [] => some []
  | [_] => none
  | c1 :: c2 :: t =>
    if isHexDigitChar c1 && isHexDigitChar c2 then
      match hexPairsToBytes t with
      | some bs => some ((16 * hexDigitVal c1 + hexDigitVal c2) :: bs)
      | none => none
    else none

/-- Decimal digit-string value, most significant first (accumulator form). -/
def decValAux : List Char → Nat → Nat
  | [], acc => acc
  | c :: t, acc => decValAux t (acc * 10 + digitVal c)

/-- Hex digit-string value, most significant first (accumulator form). -/
def hexValAux : List Char → Nat → Nat
  | [], acc => acc
  | c :: t, acc => hexValAux t (acc * 16 + hexDigitVal c)

/-- JS `parseInt(token)` on the token shapes `fromString` can receive: a
`0x`/`0X` prefix selects base 16, otherwise base 10; the longest digit
prefix is parsed and no digits at all gives NaN (encoded as `none`).  Sign
and whitespace handling are omitted: script tokens never carry them, and a
negative parse fails the caller's `> 0` range check exactly as `none`
does. -/
def parseIntJS (s : List Char) : Option Nat :=
  if s.take 2 == ['0', 'x'] || s.take 2 == ['0', 'X'] then
    (if ((s.drop 2).takeWhile isHexDigitChar).isEmpty then none
     else some (hexValAux ((s.drop 2).takeWhile isHexDigitChar) 0))
  else
    (if (s.takeWhile isDigitChar).isEmpty then none
     else some (decValAux (s.takeWhile isDigitChar) 0))

theorem digitChar_isDigit (n : Nat) (h : n < 10) :
    isDigitChar (digitChar n) = true := by
  interval_cases n <;> decide

theorem digitVal_digitChar (n : Nat) (h : n < 10) :
    digitVal (digitChar n) = n := by
  interval_cases n <;> decide

theorem hexChar_isHexDigit (n : Nat) (h : n < 16) :
    isHexDigitChar (hexChar n) = true := by
  interval_cases n <;> decide

theorem hexDigitVal_hexChar (n : Nat) (h : n < 16) :
    hexDigitVal (hexChar n) = n := by
  interval_cases n <;> decide

theorem natToDecAux_all_digits :
    ∀ fuel n, n < fuel → (natToDecAux fuel n).all isDigitChar = true := by
  intro fuel
  induction fuel with
  | zero => intro n h; omega
  | succ fuel ih =>
    intro n h
    by_cases h10 : n < 10
    · simp [natToDecAux, h10, digitChar_isDigit n h10]
    · have hrec := ih (n / 10) (by omega)
      simp only [natToDecAux, if_neg h10, List.all_append, hrec, Bool.true_and]
      simp [digitChar_isDigit (n % 10) (by omega)]

theorem natToDecAux_ne_nil :
    ∀ fuel n, n < fuel → natToDecAux fuel n ≠ [] := by
  intro fuel
  induction fuel with
  | zero => intro n h; omega
  | succ fuel ih =>
    intro n h
    by_cases h10 : n < 10
    · simp [natToDecAux, h10]
    · simp [natToDecAux, h10]

theorem decValAux_append (l1 l2 : List Char) (acc : Nat) :
    decValAux (l1 ++ l2) acc = decValAux l2 (decValAux l1 acc) := by
  induction l1 generalizing acc with
  | nil => rfl
  | cons c t ih => simp [decValAux, ih]

theorem decValAux_natToDecAux :
    ∀ fuel n, n < fuel → ∀ acc,
      decValAux (natToDecAux fuel n) acc =
        acc * 10 ^ (natToDecAux fuel n).length + n := by
  intro fuel
  induction fuel with
  | zero => intro n h; omega
  | succ fuel ih =>
    intro n h acc
    by_cases h10 : n < 10
    · simp [natToDecAux, h10, decValAux, digitVal_digitChar n h10]
    · have hlt : n / 10 < fuel := by omega
      simp only [natToDecAux, if_neg h10, decValAux_append]
      rw [ih (n / 10) hlt acc]
      simp only [decValAux, List.length_append, List.length_singleton]
      rw [digitVal_digitChar (n % 10) (by omega)]
      rw [pow_succ]
      ring_nf
      omega

theorem natToHexAux_all_hex :
    ∀ fuel n, n < fuel → (natToHexAux fuel n).all isHexDigitChar = true := by
  intro fuel
  induction fuel with
  | zero => intro n h; omega
  | succ fuel ih =>
    intro n h
    by_cases h16 : n < 16
    · simp [natToHexAux, h16, hexChar_isHexDigit n h16]
    · have hrec := ih (n / 16) (by omega)
      simp only [natToHexAux, if_neg h16, List.all_append, hrec, Bool.true_and]
      simp [hexChar_isHexDigit (n % 16) (by omega)]

theorem hexValAux_append (l1 l2 : List Char) (acc : Nat) :
    hexValAux (l1 ++ l2) acc = hexValAux l2 (hexValAux l1 acc) := by
  induction l1 generalizing acc with
  | nil => rfl
  | cons c t ih => simp [hexValAux, ih]

theorem hexValAux_natToHexAux :
    ∀ fuel n, n < fuel → ∀ acc,
      hexValAux (natToHexAux fuel n) acc =
        acc * 16 ^ (natToHexAux fuel n).length + n := by
  intro fuel
  induction fuel with
  | zero => intro n h; omega
  | succ fuel ih =>
    intro n h acc
    by_cases h16 : n < 16
    · simp [natToHexAux, h16, hexValAux, hexDigitVal_hexChar n h16]
    · have hlt : n / 16 < fuel := by omega
      simp only [natToHexAux, if_neg h16, hexValAux_append]
      rw [ih (n / 16) hlt acc]
      simp only [hexValAux, List.length_append, List.length_singleton]
      rw [hexDigitVal_hexChar (n % 16) (by omega)]
      rw [pow_succ]
      ring_nf
      omega

theorem takeWhile_of_all {p : Char → Bool} :
    ∀ l : List Char, l.all p = true → l.takeWhile p = l := by
  intro l hl
  induction l with
  | nil => rfl
  | cons c t ih =>
    simp only [List.all_cons, Bool.and_eq_true] at hl
    simp [List.takeWhile, hl.1, ih hl.2]

theorem isDigitChar_ne_x (c : Char) (h : isDigitChar c = true) :
    c ≠ 'x' ∧ c ≠ 'X' ∧ c ≠ ' ' ∧ c ≠ 'O' := by
  refine ⟨?_, ?_, ?_, ?_⟩ <;> intro heq <;> subst heq <;>
    exact absurd h (by decide)

/-- `Opcode.map` lookup (name to number); opcode.js is not under src/, the
registry is passed in explicitly as an association list. -/
def nameToNum (reg : List (List Char × Nat)) (tok : List Char) : Option Nat :=
  (reg.find? (fun p => p.1 == tok)).map (fun p => p.2)

/-- `Opcode.reverseMap` lookup (number to name), derived from the same
table. -/
def numToName (reg : List (List Char × Nat)) (n : Nat) : Option (List Char) :=
  (reg.find? (fun p => p.2 == n)).map (fun p => p.1)

/-- Modelled from the spec (§3): the opcode names the spec distinguishes.
The real registry (opcode.js, not under src/) names more opcodes, but every
name starts with `OP_` and the values 0xba..0xfc — including 0xba used by
the counterexample below — have no canonical name there either. -/
def modelOpcodeTable : List (List Char × Nat) :=
  [("OP_0".toList, 0), ("OP_PUSHDATA1".toList, 76), ("OP_PUSHDATA2".toList, 77),
   ("OP_PUSHDATA4".toList, 78), ("OP_1".toList, 81), ("OP_16".toList, 96),
   ("OP_RETURN".toList, 106), ("OP_DUP".toList, 118), ("OP_EQUAL".toList, 135),
   ("OP_EQUALVERIFY".toList, 136), ("OP_HASH160".toList, 169),
   ("OP_CODESEPARATOR".toList, 171), ("OP_CHECKSIG".toList, 172),
   ("OP_CHECKMULTISIG".toList, 174)]

/-- Registry hygiene: every canonical name starts with `O` (they all start
with `OP_`) and contains no space. -/
def regWellFormed (reg : List (List Char × Nat)) : Bool :=
  reg.all (fun p => (p.1.head? == some 'O') && p.1.all (fun c => !(c == ' ')))

/-- The registry names the three PUSHDATA opcodes, and those names resolve
back to the same numbers. -/
def regPushdataOk (reg : List (List Char × Nat)) : Bool :=
  [76, 77, 78].all (fun op =>
    match numToName reg op with
    | some nm => nameToNum reg nm == some op
    | none => false)

/-- `Script.prototype.toString` (lines 177-201), one chunk's worth of
space-separated tokens.  A bare opcode renders as its canonical name when
the registry has one, else as `0x<hex>`; a push chunk renders its PUSHDATA
opcode name (when the opcode is one of 0x4c/0x4d/0x4e — `Opcode.toString`
throws when the registry lacks the name, encoded as `none`), then the
declared length in decimal (`undefined` when the field is absent), then
`0x<hex payload>`. -/
def renderChunk (reg : List (List Char × Nat)) (c : Chunk) :
    Option (List (List Char)) :=
  match c.buf with
  | none =>
    (match numToName reg c.opcodenum with
     | some nm => some [nm]
     | none => some ['0' :: 'x' :: natToHex c.opcodenum])
  | some b =>
    (if c.opcodenum == 76 || c.opcodenum == 77 || c.opcodenum == 78 then
      (match numToName reg c.opcodenum with
       | some nm =>
         some [nm,
           (match c.len with
            | some l => natToDec l
            | none => "undefined".toList),
           '0' :: 'x' :: bytesToHex b]
       | none => none)
    else
      some [(match c.len with
             | some l => natToDec l
             | none => "undefined".toList),
        '0' :: 'x' :: bytesToHex b])

/-- All tokens of a chunk sequence, in order. -/
def renderTokens (reg : List (List Char × Nat)) : List Chunk →
    Option (List (List Char))
  | [] => some []
  | c :: cs =>
    match renderChunk reg c, renderTokens reg cs with
    | some ts, some rest => some (ts ++ rest)
    | _, _ => none

/-- Join tokens with single spaces (what `' ' + token` accumulation followed
by `substr(1)` produces). -/
def joinSpace : List (List Char) → List Char
  | [] => []
  | [t] => t
  | t :: rest => t ++ ' ' :: joinSpace rest

/-- `Script.prototype.toString`. -/
def Script.toStringJS (reg : List (List Char × Nat)) (s : List Chunk) :
    Option (List Char) :=
  (renderTokens reg s).map joinSpace

/-- `str.split(' ')`, accumulator form; splitting the empty string yields
`['']` exactly as in JS. -/
def splitSpaceAux : List Char → List Char → List (List Char)
  | [], acc => [acc.reverse]
  | c :: t, acc =>
    if c == ' ' then acc.reverse :: splitSpaceAux t []
    else splitSpaceAux t (c :: acc)

/-- `str.split(' ')`. -/
def splitSpace (s : List Char) : List (List Char) := splitSpaceAux s []

/-- Modelled from the spec (§4.4): `jsUtil.isHexa` — util/js.js is not under
src/.  "If the entire input is hexadecimal it is treated as a byte
script". -/
def jsIsHexa (s : List Char) : Bool := !s.isEmpty && s.all isHexDigitChar

/-- `Script.fromString` token loop (lines 136-173), with fuel (each
iteration consumes between one and three tokens).  Branches, in source
order: a token resolving in the registry is either a PUSHDATA opcode — then
the next two tokens are the declared length (`parseInt`, NaN kept as an
absent `len` just like the field it produces) and a payload that must start
with `0x` — or a bare opcode; an unresolved token must `parseInt` to a
direct-push length in (0, 0x4c) whose payload is the next token with two
characters sliced off (no `0x` check here); everything else throws
`InvalidScript`, encoded as `none`, as are the TypeErrors from running past
the token list and the Buffer errors from invalid hex. -/
def fromStringTokensFuel (reg : List (List Char × Nat)) :
    Nat → List (List Char) → Option (List Chunk)
  | 0, _ => none
  | _ + 1, [] => some []
  | fuel + 1, tok :: rest =>
    match nameToNum reg tok with
    | some opcodenum =>
      if opcodenum == 76 || opcodenum == 77 || opcodenum == 78 then
        match rest with
        | lenTok :: dataTok :: rest2 =>
          if dataTok.take 2 = ['0', 'x'] then
            match hexPairsToBytes (dataTok.drop 2) with
            | some buf =>
              (match fromStringTokensFuel reg fuel rest2 with
               | some cs => some (⟨opcodenum, some buf, parseIntJS lenTok⟩ :: cs)
               | none => none)
            | none => none
          else none
        | _ => none
      else
        (match fromStringTokensFuel reg fuel rest with
         | some cs => some (⟨opcodenum, none, none⟩ :: cs)
         | none => none)
    | none =>
      match parseIntJS tok with
      | some n =>
        if 0 < n ∧ n < 76 then
          match rest with
          | dataTok :: rest2 =>
            (match hexPairsToBytes (dataTok.drop 2) with
             | some buf =>
               (match fromStringTokensFuel reg fuel rest2 with
                | some cs => some (⟨n, some buf, some n⟩ :: cs)
                | none => none)
             | none => none)
          | [] => none
        else none
      | none => none

/-- `Script.fromString` (lines 129-175): an all-hex input is routed through
the byte parser, otherwise the token loop runs on the space-split input. -/
def Script.fromStringJS (reg : List (List Char × Nat)) (str : List Char) :
    Option (List Chunk) :=
  if jsIsHexa str then
    match hexPairsToBytes str with
    | some bytes => Script.fromBuffer bytes
    | none => none
  else fromStringTokensFuel reg (str.length + 1) (splitSpace str)

/-- C8 (counterexample): the bare opcode 0xba (186) has no canonical name,
so the script built by `add(186)` renders as the token `0xba`; `fromString`
then fails (`parseInt('0xba') = 186` is outside the direct-push range
(0, 0x4c)), so `parseText(renderText(s))` is not chunk-wise equal to `s` —
it does not parse at all, refuting the claim for scripts containing bare
opcodes with no canonical name. -/
theorem script_text_roundtrip_counterexample :
    Script._addOpcode [] 186 false = [⟨186, none, none⟩] ∧
    Script.toStringJS modelOpcodeTable [⟨186, none, none⟩] =
      some ('0' :: 'x' :: 'b' :: 'a' :: []) ∧
    Script.fromStringJS modelOpcodeTable ('0' :: 'x' :: 'b' :: 'a' :: []) =
      none :=
  ⟨by decide, by decide, by decide⟩

theorem natToDec_all_digits (n : Nat) : (natToDec n).all isDigitChar = true :=
  natToDecAux_all_digits (n + 1) n (Nat.lt_succ_self n)

theorem natToDec_ne_nil (n : Nat) : natToDec n ≠ [] :=
  natToDecAux_ne_nil (n + 1) n (Nat.lt_succ_self n)

theorem decValAux_natToDec (n : Nat) : decValAux (natToDec n) 0 = n := by
  have h := decValAux_natToDecAux (n + 1) n (Nat.lt_succ_self n) 0
  simpa [natToDec] using h

theorem parseIntJS_natToDec (n : Nat) : parseIntJS (natToDec n) = some n := by
  have hall := natToDec_all_digits n
  have hne := natToDec_ne_nil n
  have hcond :
      ¬((natToDec n).take 2 = ['0', 'x'] ∨ (natToDec n).take 2 = ['0', 'X']) := by
    intro hor
    cases hL : natToDec n with
    | nil => exact hne hL
    | cons c1 t =>
      rw [hL] at hor hall
      cases t with
      | nil => simp at hor
      | cons c2 t2 =>
        simp only [List.take_succ_cons, List.take_zero] at hor
        simp only [List.all_cons, Bool.and_eq_true] at hall
        have hc2 : isDigitChar c2 = true := hall.2.1
        rcases hor with h | h
        · have : c2 = 'x' := by simpa using congrArg (fun l => l.drop 1) h
          rw [this] at hc2
          exact absurd hc2 (by decide)
        · have : c2 = 'X' := by simpa using congrArg (fun l => l.drop 1) h
          rw [this] at hc2
          exact absurd hc2 (by decide)
  rw [parseIntJS, if_neg (by simpa using hcond), takeWhile_of_all _ hall]
  rw [if_neg (by simp [hne])]
  rw [decValAux_natToDec]

theorem bytesToHex_all_hex (l : List Nat) :
    (bytesToHex l).all isHexDigitChar = true := by
  induction l with
  | nil => rfl
  | cons b t ih =>
    have e1 : isHexDigitChar (hexChar (b / 16 % 16)) = true :=
      hexChar_isHexDigit _ (by omega)
    have e2 : isHexDigitChar (hexChar (b % 16)) = true :=
      hexChar_isHexDigit _ (by omega)
    simp [bytesToHex, e1, e2, ih]

theorem hexPairsToBytes_bytesToHex (l : List Nat) (hl : ∀ b ∈ l, b < 256) :
    hexPairsToBytes (bytesToHex l) = some l := by
  induction l with
  | nil => rfl
  | cons b t ih =>
    have hb0 : b < 256 := hl b (by simp)
    have hbt : ∀ x ∈ t, x < 256 := fun x hx => hl x (by simp [hx])
    have e1 : isHexDigitChar (hexChar (b / 16 % 16)) = true :=
      hexChar_isHexDigit _ (by omega)
    have e2 : isHexDigitChar (hexChar (b % 16)) = true :=
      hexChar_isHexDigit _ (by omega)
    have e3 : hexDigitVal (hexChar (b / 16 % 16)) = b / 16 % 16 :=
      hexDigitVal_hexChar _ (by omega)
    have e4 : hexDigitVal (hexChar (b % 16)) = b % 16 :=
      hexDigitVal_hexChar _ (by omega)
    simp [bytesToHex, hexPairsToBytes, e1, e2, e3, e4, ih hbt]
    omega

theorem isHexDigitChar_ne_space (c : Char) (h : isHexDigitChar c = true) :
    c ≠ ' ' := by
  intro heq
  subst heq
  exact absurd h (by decide)

theorem all_not_space_of_all_digits (l : List Char)
    (h : l.all isDigitChar = true) : l.all (fun c => !(c == ' ')) = true := by
  rw [List.all_eq_true] at h ⊢
  intro c hc
  have h2 := (isDigitChar_ne_x c (h c hc)).2.2.1
  simp [h2]

theorem all_not_space_of_all_hex (l : List Char)
    (h : l.all isHexDigitChar = true) : l.all (fun c => !(c == ' ')) = true := by
  rw [List.all_eq_true] at h ⊢
  intro c hc
  have h2 := isHexDigitChar_ne_space c (h c hc)
  simp [h2]

theorem splitSpaceAux_no_space :
    ∀ (t acc : List Char), t.all (fun c => !(c == ' ')) = true →
      splitSpaceAux t acc = [acc.reverse ++ t] := by
  intro t
  induction t with
  | nil => intro acc _; simp [splitSpaceAux]
  | cons c t2 ih =>
    intro acc h
    simp only [List.all_cons, Bool.and_eq_true] at h
    have hc : (c == ' ') = false := by
      revert h; cases c == ' ' <;> simp
    simp only [splitSpaceAux, hc, Bool.false_eq_true, if_false]
    rw [ih (c :: acc) h.2]
    simp

theorem splitSpaceAux_space_split :
    ∀ (t rest acc : List Char), t.all (fun c => !(c == ' ')) = true →
      splitSpaceAux (t ++ ' ' :: rest) acc =
        (acc.reverse ++ t) :: splitSpaceAux rest [] := by
  intro t
  induction t with
  | nil =>
    intro rest acc _
    simp [splitSpaceAux]
  | cons c t2 ih =>
    intro rest acc h
    simp only [List.all_cons, Bool.and_eq_true] at h
    have hc : (c == ' ') = false := by
      revert h; cases c == ' ' <;> simp
    simp only [List.cons_append, splitSpaceAux, hc, Bool.false_eq_true, if_false]
    rw [show t2.append (' ' :: rest) = t2 ++ ' ' :: rest from rfl,
      ih rest (c :: acc) h.2]
    simp

theorem splitSpace_joinSpace :
    ∀ ts : List (List Char), ts ≠ [] →
      (∀ t ∈ ts, t.all (fun c => !(c == ' ')) = true) →
      splitSpace (joinSpace ts) = ts := by
  intro ts
  induction ts with
  | nil => intro h; exact absurd rfl h
  | cons t rest ih =>
    intro _ hall
    cases rest with
    | nil =>
      show splitSpaceAux (joinSpace [t]) [] = [t]
      rw [show joinSpace [t] = t from rfl]
      rw [splitSpaceAux_no_space t [] (hall t (by simp))]
      simp
    | cons t2 r2 =>
      show splitSpaceAux (joinSpace (t :: t2 :: r2)) [] = t :: t2 :: r2
      rw [show joinSpace (t :: t2 :: r2) = t ++ ' ' :: joinSpace (t2 :: r2) from rfl]
      rw [splitSpaceAux_space_split t _ [] (hall t (by simp))]
      simp only [List.reverse_nil, List.nil_append]
      rw [show splitSpaceAux (joinSpace (t2 :: r2)) [] =
        splitSpace (joinSpace (t2 :: r2)) from rfl]
      rw [ih (by simp) (fun x hx => hall x (by simp [hx]))]

theorem nameToNum_none_of_head (reg : List (List Char × Nat))
    (hreg : regWellFormed reg = true) (tok : List Char) (c : Char)
    (hhead : tok.head? = some c) (hc : c ≠ 'O') : nameToNum reg tok = none := by
  have hnone : ∀ p ∈ reg, ¬((fun q : List Char × Nat => q.1 == tok) p = true) := by
    intro p hp hbeq
    have hO := List.all_eq_true.mp hreg p hp
    simp only [Bool.and_eq_true, beq_iff_eq] at hO hbeq
    rw [hbeq, hhead] at hO
    exact hc (by injection hO.1)
  simp only [nameToNum]
  rw [List.find?_eq_none.mpr hnone]
  rfl

theorem jsIsHexa_false_of_mem (str : List Char) (c : Char) (hc : c ∈ str)
    (hp : isHexDigitChar c = false) : jsIsHexa str = false := by
  unfold jsIsHexa
  have hall : str.all isHexDigitChar = false := by
    by_contra h
    have h2 : str.all isHexDigitChar = true := by
      revert h; cases str.all isHexDigitChar <;> simp
    rw [List.all_eq_true] at h2
    rw [h2 c hc] at hp
    exact absurd hp (by decide)
  simp [hall]

theorem natToHex_all_hex (n : Nat) : (natToHex n).all isHexDigitChar = true :=
  natToHexAux_all_hex (n + 1) n (Nat.lt_succ_self n)

theorem numToName_mem (reg : List (List Char × Nat)) (n : Nat) (nm : List Char)
    (h : numToName reg n = some nm) : ∃ p ∈ reg, p.1 = nm := by
  unfold numToName at h
  cases hf : reg.find? (fun p => p.2 == n) with
  | none => rw [hf] at h; simp at h
  | some p =>
    rw [hf] at h
    simp at h
    exact ⟨p, List.mem_of_find?_eq_some hf, h⟩

theorem regName_facts (reg : List (List Char × Nat))
    (hreg : regWellFormed reg = true) (nm : List Char)
    (hmem : ∃ p ∈ reg, p.1 = nm) :
    nm.head? = some 'O' ∧ nm.all (fun c => !(c == ' ')) = true := by
  obtain ⟨p, hp, rfl⟩ := hmem
  have h := List.all_eq_true.mp hreg p hp
  simp only [Bool.and_eq_true, beq_iff_eq] at h
  exact ⟨h.1, h.2⟩

theorem renderChunk_group_facts (reg : List (List Char × Nat))
    (hreg : regWellFormed reg = true) (c : Chunk) (g : List (List Char))
    (hg : renderChunk reg c = some g) :
    g ≠ [] ∧ ∀ t ∈ g, t ≠ [] ∧ t.all (fun ch => !(ch == ' ')) = true := by
  have hlen : ∀ lenOpt : Option Nat,
      (match lenOpt with
       | some l => natToDec l
       | none => "undefined".toList) ≠ [] ∧
      (match lenOpt with
       | some l => natToDec l
       | none => "undefined".toList).all (fun ch => !(ch == ' ')) = true := by
    intro lenOpt
    cases lenOpt with
    | some l =>
      exact ⟨natToDec_ne_nil l, all_not_space_of_all_digits _ (natToDec_all_digits l)⟩
    | none => exact ⟨by decide, by decide⟩
  have hdata : ∀ b : List Nat, ('0' :: 'x' :: bytesToHex b) ≠ [] ∧
      ('0' :: 'x' :: bytesToHex b).all (fun ch => !(ch == ' ')) = true := by
    intro b
    refine ⟨by simp, ?_⟩
    simp only [List.all_cons, Bool.and_eq_true]
    exact ⟨by decide, by decide, all_not_space_of_all_hex _ (bytesToHex_all_hex b)⟩
  have hname : ∀ nm, numToName reg c.opcodenum = some nm →
      nm ≠ [] ∧ nm.all (fun ch => !(ch == ' ')) = true := by
    intro nm hnm
    have hf := regName_facts reg hreg nm (numToName_mem reg _ nm hnm)
    refine ⟨?_, hf.2⟩
    intro hnil
    rw [hnil] at hf
    simp at hf
  unfold renderChunk at hg
  cases hbuf : c.buf with
  | none =>
    rw [hbuf] at hg
    cases hnm : numToName reg c.opcodenum with
    | some nm =>
      rw [hnm] at hg
      simp only [Option.some.injEq] at hg
      subst hg
      refine ⟨by simp, ?_⟩
      intro t ht
      simp only [List.mem_singleton] at ht
      subst ht
      exact hname t hnm
    | none =>
      rw [hnm] at hg
      simp only [Option.some.injEq] at hg
      subst hg
      refine ⟨by simp, ?_⟩
      intro t ht
      simp only [List.mem_singleton] at ht
      subst ht
      refine ⟨by simp, ?_⟩
      simp only [List.all_cons, Bool.and_eq_true]
      exact ⟨by decide, by decide, all_not_space_of_all_hex _ (natToHex_all_hex _)⟩
  | some b =>
    rw [hbuf] at hg
    dsimp only at hg
    by_cases hpd : (c.opcodenum == 76 || c.opcodenum == 77 || c.opcodenum == 78) = true
    · rw [if_pos hpd] at hg
      cases hnm : numToName reg c.opcodenum with
      | none => rw [hnm] at hg; simp at hg
      | some nm =>
        rw [hnm] at hg
        simp only [Option.some.injEq] at hg
        subst hg
        refine ⟨by simp, ?_⟩
        intro t ht
        simp only [List.mem_cons, List.mem_singleton, List.not_mem_nil, or_false] at ht
        rcases ht with rfl | rfl | rfl
        · exact hname t hnm
        · exact hlen c.len
        · exact hdata b
    · rw [if_neg hpd] at hg
      simp only [Option.some.injEq] at hg
      subst hg
      refine ⟨by simp, ?_⟩
      intro t ht
      simp only [List.mem_cons, List.mem_singleton, List.not_mem_nil, or_false] at ht
      rcases ht with rfl | rfl
      · exact hlen c.len
      · exact hdata b

theorem renderTokens_facts (reg : List (List Char × Nat))
    (hreg : regWellFormed reg = true) :
    ∀ (s : List Chunk) (tokens : List (List Char)),
      renderTokens reg s = some tokens →
      (∀ t ∈ tokens, t ≠ [] ∧ t.all (fun ch => !(ch == ' ')) = true) ∧
      s.length ≤ tokens.length := by
  intro s
  induction s with
  | nil =>
    intro tokens h
    simp only [renderTokens, Option.some.injEq] at h
    subst h
    exact ⟨by simp, by simp⟩
  | cons c s2 ih =>
    intro tokens h
    simp only [renderTokens] at h
    cases hg : renderChunk reg c with
    | none => rw [hg] at h; simp at h
    | some g =>
      cases hr : renderTokens reg s2 with
      | none => rw [hg, hr] at h; simp at h
      | some rest =>
        rw [hg, hr] at h
        simp only [Option.some.injEq] at h
        subst h
        have hgf := renderChunk_group_facts reg hreg c g hg
        have ihf := ih rest hr
        constructor
        · intro t ht
          rcases List.mem_append.mp ht with h1 | h2
          · exact hgf.2 t h1
          · exact ihf.1 t h2
        · have hg1 : 1 ≤ g.length := List.length_pos.mpr hgf.1
          simp only [List.length_cons, List.length_append]
          omega

theorem tokens_le_joinSpace_length :
    ∀ ts : List (List Char), (∀ t ∈ ts, t ≠ []) →
      ts.length ≤ (joinSpace ts).length := by
  intro ts
  induction ts with
  | nil => intro _; simp [joinSpace]
  | cons t rest ih =>
    intro h
    cases rest with
    | nil =>
      have h2 : 1 ≤ t.length := List.length_pos.mpr (h t (by simp))
      simpa [joinSpace] using h2
    | cons t2 r2 =>
      have h2 : 1 ≤ t.length := List.length_pos.mpr (h t (by simp))
      have h3 := ih (fun x hx => h x (by simp [hx]))
      show (t :: t2 :: r2).length ≤ (t ++ ' ' :: joinSpace (t2 :: r2)).length
      simp only [List.length_cons, List.length_append] at h3 ⊢
      omega

/-- The opcode the minimum-encoding rule of `_addBuffer` selects for a
payload length, `none` outside (0, 2^32). -/
def minimalPushOpcode (l : Nat) : Option Nat :=
  if l = 0 then none
  else if l < 76 then some l
  else if l < 2 ^ 8 then some 76
  else if l < 2 ^ 16 then some 77
  else if l < 2 ^ 32 then some 78
  else none

/-- A chunk the public build API can produce and whose text form survives
the token loop: a bare opcode that is not OP_PUSHDATA1/2/4 and has a
canonical name resolving back to the same number, or a push chunk holding a
nonempty byte payload with the declared length and the minimum-encoding
opcode. -/
def chunkRenderOk (reg : List (List Char × Nat)) (c : Chunk) : Bool :=
  match c.buf with
  | none =>
    (c.len == none) &&
    !(c.opcodenum == 76 || c.opcodenum == 77 || c.opcodenum == 78) &&
    (match numToName reg c.opcodenum with
     | some nm => nameToNum reg nm == some c.opcodenum
     | none => false)
  | some b =>
    !(b.isEmpty) && b.all (fun x => decide (x < 256)) &&
    (c.len == some b.length) && (minimalPushOpcode b.length == some c.opcodenum)

/-- A nonempty script all of whose chunks are round-trippable. -/
def scriptRenderOk (reg : List (List Char × Nat)) (s : List Chunk) : Bool :=
  !(s.isEmpty) && s.all (chunkRenderOk reg)

theorem parse_step_bare (reg : List (List Char × Nat)) (fuel : Nat)
    (tok : List Char) (rest : List (List Char)) (op : Nat)
    (hn : nameToNum reg tok = some op)
    (hnpd : (op == 76 || op == 77 || op == 78) = false) :
    fromStringTokensFuel reg (fuel + 1) (tok :: rest) =
      (match fromStringTokensFuel reg fuel rest with
       | some cs => some (⟨op, none, none⟩ :: cs)
       | none => none) := by
  simp only [fromStringTokensFuel, hn, hnpd, Bool.false_eq_true, if_false]

theorem parse_step_direct (reg : List (List Char × Nat)) (fuel : Nat)
    (tok dataTok : List Char) (rest : List (List Char)) (n : Nat)
    (hn : nameToNum reg tok = none) (hp : parseIntJS tok = some n)
    (h1 : 0 < n) (h2 : n < 76) (buf : List Nat)
    (hhex : hexPairsToBytes (dataTok.drop 2) = some buf) :
    fromStringTokensFuel reg (fuel + 1) (tok :: dataTok :: rest) =
      (match fromStringTokensFuel reg fuel rest with
       | some cs => some (⟨n, some buf, some n⟩ :: cs)
       | none => none) := by
  simp only [fromStringTokensFuel, hn, hp]
  rw [if_pos (⟨h1, h2⟩ : 0 < n ∧ n < 76)]
  simp only [hhex]

theorem parse_step_pushdata (reg : List (List Char × Nat)) (fuel : Nat)
    (tok lenTok dataTok : List Char) (rest : List (List Char)) (op : Nat)
    (hn : nameToNum reg tok = some op)
    (hpd : (op == 76 || op == 77 || op == 78) = true)
    (htake : dataTok.take 2 = ['0', 'x'])
    (buf : List Nat) (hhex : hexPairsToBytes (dataTok.drop 2) = some buf) :
    fromStringTokensFuel reg (fuel + 1) (tok :: lenTok :: dataTok :: rest) =
      (match fromStringTokensFuel reg fuel rest with
       | some cs => some (⟨op, some buf, parseIntJS lenTok⟩ :: cs)
       | none => none) := by
  simp only [fromStringTokensFuel, hn, hpd, if_true]
  rw [if_pos htake]
  simp only [hhex]

theorem regPushdataOk_facts (reg : List (List Char × Nat))
    (h : regPushdataOk reg = true) (op : Nat)
    (hop : op = 76 ∨ op = 77 ∨ op = 78) :
    ∃ nm, numToName reg op = some nm ∧ nameToNum reg nm = some op := by
  simp only [regPushdataOk, List.all_cons, List.all_nil, Bool.and_eq_true,
    and_true] at h
  obtain ⟨h76, h77, h78⟩ := h
  rcases hop with rfl | rfl | rfl
  · cases hn : numToName reg 76 with
    | none => rw [hn] at h76; simp at h76
    | some nm =>
      rw [hn] at h76
      exact ⟨nm, rfl, by simpa using h76⟩
  · cases hn : numToName reg 77 with
    | none => rw [hn] at h77; simp at h77
    | some nm =>
      rw [hn] at h77
      exact ⟨nm, rfl, by simpa using h77⟩
  · cases hn : numToName reg 78 with
    | none => rw [hn] at h78; simp at h78
    | some nm =>
      rw [hn] at h78
      exact ⟨nm, rfl, by simpa using h78⟩

theorem nameToNum_natToDec_none (reg : List (List Char × Nat))
    (hreg : regWellFormed reg = true) (l : Nat) :
    nameToNum reg (natToDec l) = none := by
  cases hL : natToDec l with
  | nil => exact absurd hL (natToDec_ne_nil l)
  | cons d t =>
    have hall := natToDec_all_digits l
    rw [hL] at hall
    simp only [List.all_cons, Bool.and_eq_true] at hall
    have hd := (isDigitChar_ne_x d hall.1).2.2.2
    rw [← hL]
    exact nameToNum_none_of_head reg hreg (natToDec l) d (by rw [hL]; rfl) hd

theorem parse_append (reg : List (List Char × Nat))
    (hreg : regWellFormed reg = true) (hpdreg : regPushdataOk reg = true) :
    ∀ (s : List Chunk), s.all (chunkRenderOk reg) = true →
    ∀ (tokens : List (List Char)), renderTokens reg s = some tokens →
    ∀ (ts : List (List Char)) (f : Nat), tokens.length + ts.length < f →
      fromStringTokensFuel reg f (tokens ++ ts) =
        Option.map (fun cs => s ++ cs)
          (fromStringTokensFuel reg (f - s.length) ts) := by
  intro s
  induction s with
  | nil =>
    intro _ tokens htok ts f hf
    simp only [renderTokens, Option.some.injEq] at htok
    subst htok
    simp only [List.nil_append, List.length_nil, Nat.sub_zero]
    cases fromStringTokensFuel reg f ts <;> simp
  | cons c s2 ih =>
    intro hall tokens htok ts f hf
    simp only [List.all_cons, Bool.and_eq_true] at hall
    obtain ⟨hc, hall2⟩ := hall
    simp only [renderTokens] at htok
    cases hg : renderChunk reg c with
    | none => rw [hg] at htok; simp at htok
    | some g =>
      cases hrt : renderTokens reg s2 with
      | none => rw [hg, hrt] at htok; simp at htok
      | some tokens2 =>
        rw [hg, hrt] at htok
        simp only [Option.some.injEq] at htok
        subst htok
        obtain ⟨fp, rfl⟩ : ∃ fp, f = fp + 1 := ⟨f - 1, by omega⟩
        obtain ⟨cop, cbuf, clen⟩ := c
        cases cbuf with
        | none =>
          simp only [chunkRenderOk, Bool.and_eq_true] at hc
          obtain ⟨⟨hlen0, hnpd⟩, hnm⟩ := hc
          cases hnm2 : numToName reg cop with
          | none =>
            rw [show numToName reg (Chunk.mk cop none clen).opcodenum =
              numToName reg cop from rfl] at hnm
            rw [hnm2] at hnm
            simp at hnm
          | some nm =>
            rw [show numToName reg (Chunk.mk cop none clen).opcodenum =
              numToName reg cop from rfl, hnm2] at hnm
            have hback : nameToNum reg nm = some cop := by simpa using hnm
            have hgv : g = [nm] := by
              unfold renderChunk at hg
              simp only at hg
              rw [hnm2] at hg
              exact (Option.some.inj hg).symm
            subst hgv
            have hclen : clen = none := by simpa using hlen0
            subst hclen
            have hnpd2 : (cop == 76 || cop == 77 || cop == 78) = false := by
              simpa using hnpd
            rw [show ([nm] ++ tokens2) ++ ts = nm :: (tokens2 ++ ts) by simp]
            rw [parse_step_bare reg fp nm (tokens2 ++ ts) cop hback hnpd2]
            have hrec := ih hall2 tokens2 hrt ts fp (by
              simp only [List.length_append, List.length_cons,
                List.length_nil] at hf ⊢
              omega)
            rw [hrec]
            have hfuel : fp + 1 - (Chunk.mk cop none none :: s2).length =
                fp - s2.length := by
              simp only [List.length_cons]
              omega
            rw [hfuel]
            cases fromStringTokensFuel reg (fp - s2.length) ts <;> simp
        | some b =>
          simp only [chunkRenderOk, Bool.and_eq_true] at hc
          obtain ⟨⟨⟨hbne, hblt⟩, hlenf⟩, hmp⟩ := hc
          have hbne2 : b ≠ [] := by
            intro hnil
            rw [hnil] at hbne
            simp at hbne
          have hlen1 : 1 ≤ b.length := List.length_pos.mpr hbne2
          have hclen : clen = some b.length := by simpa using hlenf
          subst hclen
          have hmp2 : minimalPushOpcode b.length = some cop := by simpa using hmp
          have hblt2 : ∀ x ∈ b, x < 256 := by
            rw [List.all_eq_true] at hblt
            intro x hx
            simpa using hblt x hx
          have hhex : hexPairsToBytes (('0' :: 'x' :: bytesToHex b).drop 2) =
              some b := by
            rw [show ('0' :: 'x' :: bytesToHex b).drop 2 = bytesToHex b from rfl]
            exact hexPairsToBytes_bytesToHex b hblt2
          by_cases hlt : b.length < 76
          · have hcop : cop = b.length := by
              simp only [minimalPushOpcode] at hmp2
              rw [if_neg (by omega), if_pos hlt] at hmp2
              exact (Option.some.inj hmp2).symm
            subst hcop
            have hnpd2 : (b.length == 76 || b.length == 77 || b.length == 78) =
                false := by
              simp only [Bool.or_eq_false_iff, beq_eq_false_iff_ne]
              omega
            have hgv : g = [natToDec b.length, '0' :: 'x' :: bytesToHex b] := by
              unfold renderChunk at hg
              simp only at hg
              rw [if_neg (by simp [hnpd2])] at hg
              exact (Option.some.inj hg).symm
            subst hgv
            rw [show ([natToDec b.length, '0' :: 'x' :: bytesToHex b] ++ tokens2) ++ ts =
              natToDec b.length :: ('0' :: 'x' :: bytesToHex b) :: (tokens2 ++ ts) by simp]
            rw [parse_step_direct reg fp (natToDec b.length)
              ('0' :: 'x' :: bytesToHex b) (tokens2 ++ ts) b.length
              (nameToNum_natToDec_none reg hreg b.length)
              (parseIntJS_natToDec b.length) (by omega) hlt b hhex]
            have hrec := ih hall2 tokens2 hrt ts fp (by
              simp only [List.length_append, List.length_cons,
                List.length_nil] at hf ⊢
              omega)
            rw [hrec]
            have hfuel : fp + 1 -
                (Chunk.mk b.length (some b) (some b.length) :: s2).length =
                fp - s2.length := by
              simp only [List.length_cons]
              omega
            rw [hfuel]
            cases fromStringTokensFuel reg (fp - s2.length) ts <;> simp
          · have hcop : cop = 76 ∨ cop = 77 ∨ cop = 78 := by
              simp only [minimalPushOpcode] at hmp2
              split_ifs at hmp2 <;> simp at hmp2 <;> omega
            obtain ⟨nm, hnm, hback⟩ := regPushdataOk_facts reg hpdreg cop hcop
            have hpd2 : (cop == 76 || cop == 77 || cop == 78) = true := by
              rcases hcop with rfl | rfl | rfl <;> decide
            have hgv : g = [nm, natToDec b.length, '0' :: 'x' :: bytesToHex b] := by
              unfold renderChunk at hg
              simp only at hg
              rw [if_pos hpd2, hnm] at hg
              exact (Option.some.inj hg).symm
            subst hgv
            rw [show ([nm, natToDec b.length, '0' :: 'x' :: bytesToHex b] ++ tokens2) ++ ts =
              nm :: natToDec b.length :: ('0' :: 'x' :: bytesToHex b) :: (tokens2 ++ ts)
              by simp]
            rw [parse_step_pushdata reg fp nm (natToDec b.length)
              ('0' :: 'x' :: bytesToHex b) (tokens2 ++ ts) cop hback hpd2 rfl b hhex]
            have hrec := ih hall2 tokens2 hrt ts fp (by
              simp only [List.length_append, List.length_cons,
                List.length_nil] at hf ⊢
              omega)
            rw [hrec, parseIntJS_natToDec]
            have hfuel : fp + 1 -
                (Chunk.mk cop (some b) (some b.length) :: s2).length =
                fp - s2.length := by
              simp only [List.length_cons]
              omega
            rw [hfuel]
            cases fromStringTokensFuel reg (fp - s2.length) ts <;> simp

theorem renderChunk_some (reg : List (List Char × Nat))
    (hpdreg : regPushdataOk reg = true) (c : Chunk)
    (hc : chunkRenderOk reg c = true) : ∃ g, renderChunk reg c = some g := by
  obtain ⟨cop, cbuf, clen⟩ := c
  cases cbuf with
  | none =>
    unfold renderChunk
    simp only
    cases numToName reg cop with
    | some nm => exact ⟨[nm], rfl⟩
    | none => exact ⟨_, rfl⟩
  | some b =>
    unfold renderChunk
    simp only
    by_cases hpd : (cop == 76 || cop == 77 || cop == 78) = true
    · have hcop : cop = 76 ∨ cop = 77 ∨ cop = 78 := by
        have h2 := hpd
        simp only [Bool.or_eq_true, beq_iff_eq] at h2
        tauto
      obtain ⟨nm, hnm, _⟩ := regPushdataOk_facts reg hpdreg cop hcop
      rw [if_pos hpd, hnm]
      exact ⟨_, rfl⟩
    · rw [if_neg hpd]
      exact ⟨_, rfl⟩

theorem renderTokens_some (reg : List (List Char × Nat))
    (hpdreg : regPushdataOk reg = true) :
    ∀ s : List Chunk, s.all (chunkRenderOk reg) = true →
      ∃ tokens, renderTokens reg s = some tokens := by
  intro s
  induction s with
  | nil => intro _; exact ⟨[], rfl⟩
  | cons c s2 ih =>
    intro hall
    simp only [List.all_cons, Bool.and_eq_true] at hall
    obtain ⟨g, hg⟩ := renderChunk_some reg hpdreg c hall.1
    obtain ⟨rest, hrest⟩ := ih hall.2
    exact ⟨g ++ rest, by simp [renderTokens, hg, hrest]⟩

theorem mem_joinSpace_head (c : Char) (t1 : List Char)
    (rest : List (List Char)) (h : c ∈ t1) : c ∈ joinSpace (t1 :: rest) := by
  cases rest with
  | nil => simpa [joinSpace] using h
  | cons t2 r2 =>
    show c ∈ t1 ++ ' ' :: joinSpace (t2 :: r2)
    exact List.mem_append_left _ h

theorem space_mem_joinSpace_two (t1 t2 : List Char) (r : List (List Char)) :
    ' ' ∈ joinSpace (t1 :: t2 :: r) := by
  show ' ' ∈ t1 ++ ' ' :: joinSpace (t2 :: r)
  simp

/-- C8 (amended): `parseText(renderText(s)) = s` holds for every nonempty
script whose chunks are round-trippable: bare chunks whose opcode has a
canonical name (resolving back to the same number) and is not
OP_PUSHDATA1/2/4, plus pushes carrying a nonempty payload with the declared
length and the minimum-encoding opcode — exactly what the public build API
produces apart from bare unnamed or bare PUSHDATA opcodes.  Bare opcodes
without a canonical name render as `0x<hex>` but do NOT reparse (see the
counterexample), which is what forces the restriction. -/
theorem script_text_roundtrip_amended (reg : List (List Char × Nat))
    (hreg : regWellFormed reg = true) (hpdreg : regPushdataOk reg = true)
    (s : List Chunk) (hs : scriptRenderOk reg s = true) :
    ∃ str, Script.toStringJS reg s = some str ∧
      Script.fromStringJS reg str = some s := by
  simp only [scriptRenderOk, Bool.and_eq_true] at hs
  obtain ⟨hne, hall⟩ := hs
  have hne2 : s ≠ [] := by
    intro h
    rw [h] at hne
    simp at hne
  obtain ⟨tokens, htok⟩ := renderTokens_some reg hpdreg s hall
  have hfacts := renderTokens_facts reg hreg s tokens htok
  refine ⟨joinSpace tokens, by simp [Script.toStringJS, htok], ?_⟩
  have htokne : tokens ≠ [] := by
    intro h
    have h2 := hfacts.2
    rw [h] at h2
    simp only [List.length_nil, Nat.le_zero] at h2
    exact hne2 (List.length_eq_zero.mp h2)
  have hhexa : jsIsHexa (joinSpace tokens) = false := by
    cases s with
    | nil => exact absurd rfl hne2
    | cons c s2 =>
      have htok2 := htok
      simp only [renderTokens] at htok2
      cases hg : renderChunk reg c with
      | none => rw [hg] at htok2; simp at htok2
      | some g =>
        cases hrt : renderTokens reg s2 with
        | none => rw [hg, hrt] at htok2; simp at htok2
        | some tokens2 =>
          rw [hg, hrt] at htok2
          simp only [Option.some.injEq] at htok2
          subst htok2
          simp only [List.all_cons, Bool.and_eq_true] at hall
          obtain ⟨cop, cbuf, clen⟩ := c
          cases cbuf with
          | none =>
            have hc := hall.1
            simp only [chunkRenderOk, Bool.and_eq_true] at hc
            obtain ⟨⟨_, _⟩, hnm⟩ := hc
            cases hn : numToName reg cop with
            | none =>
              rw [show numToName reg (Chunk.mk cop none clen).opcodenum =
                numToName reg cop from rfl, hn] at hnm
              simp at hnm
            | some nm =>
              have hgv : g = [nm] := by
                unfold renderChunk at hg
                simp only at hg
                rw [hn] at hg
                exact (Option.some.inj hg).symm
              subst hgv
              have hhead := (regName_facts reg hreg nm
                (numToName_mem reg cop nm hn)).1
              have hOmem : 'O' ∈ nm := by
                cases nm with
                | nil => simp at hhead
                | cons a t =>
                  simp only [List.head?_cons, Option.some.injEq] at hhead
                  subst hhead
                  simp
              exact jsIsHexa_false_of_mem _ 'O'
                (mem_joinSpace_head 'O' nm tokens2 hOmem) (by decide)
          | some b =>
            have hg2 : ∃ a1 a2 g2, g = a1 :: a2 :: g2 := by
              unfold renderChunk at hg
              simp only at hg
              by_cases hpd : (cop == 76 || cop == 77 || cop == 78) = true
              · rw [if_pos hpd] at hg
                cases hn : numToName reg cop with
                | none => rw [hn] at hg; simp at hg
                | some nm =>
                  rw [hn] at hg
                  exact ⟨_, _, _, (Option.some.inj hg).symm⟩
              · rw [if_neg hpd] at hg
                exact ⟨_, _, _, (Option.some.inj hg).symm⟩
            obtain ⟨a1, a2, g2, rfl⟩ := hg2
            exact jsIsHexa_false_of_mem _ ' '
              (space_mem_joinSpace_two a1 a2 (g2 ++ tokens2)) (by decide)
  rw [Script.fromStringJS, if_neg (by simp [hhexa])]
  rw [splitSpace_joinSpace tokens htokne (fun t ht => (hfacts.1 t ht).2)]
  have hlen1 : tokens.length ≤ (joinSpace tokens).length :=
    tokens_le_joinSpace_length tokens (fun t ht => (hfacts.1 t ht).1)
  have happ := parse_append reg hreg hpdreg s hall tokens htok []
    ((joinSpace tokens).length + 1)
    (by simp only [List.length_nil, Nat.add_zero]; omega)
  rw [List.append_nil] at happ
  rw [happ]
  obtain ⟨k, hk⟩ : ∃ k, (joinSpace tokens).length + 1 - s.length = k + 1 := by
    have h2 := hfacts.2
    exact ⟨(joinSpace tokens).length - s.length, by omega⟩
  rw [hk]
  simp [fromStringTokensFuel]

/-- Witness for C8 (amended claim) at the spec's E3 script
`OP_RETURN, push 5, "Hello"` under the modelled registry. -/
theorem script_text_roundtrip_amended_witness :
    ∃ str,
      Script.toStringJS modelOpcodeTable
        [⟨106, none, none⟩, ⟨5, some [72, 101, 108, 108, 111], some 5⟩] =
          some str ∧
      Script.fromStringJS modelOpcodeTable str =
        some [⟨106, none, none⟩, ⟨5, some [72, 101, 108, 108, 111], some 5⟩] :=
  script_text_roundtrip_amended modelOpcodeTable (by decide) (by decide)
    [⟨106, none, none⟩, ⟨5, some [72, 101, 108, 108, 111], some 5⟩] (by decide)
